import Mathlib

/-!
# Verification of the `irrc` pipelined IRRd client

Shallow embedding of the crate's core components, translated from the Rust
source:

* `src/parse.rs` — the nom-based wire-framing parsers (`response_status`,
  `end_of_response`, `word`, `all`, `noop`, `paragraph`), embedded together
  with the semantics of the nom 7 *streaming* combinators they use
  (`char`, `digit1`, `newline`, `space0`, `take_till`, `take_till1`, `tag`,
  `take_until`, `alt`, `consumed`, `map_res`, `opt`, `terminated`,
  `delimited`).
* `src/query.rs` — the `Query` catalogue (`cmd`, `expect_data`,
  `parse_item`).
* `src/pipeline/queue.rs` — the send queue (`push`, `flush`, `pop`).
* `src/pipeline/mod.rs` — the pipeline coordinator (`pop_wrapped`,
  `Response::next_or_yield`, `Responses::next`).

Bytes are modelled as `Nat` (values < 256 in practice), byte strings as
`List Nat`.  The TCP connection is modelled by a fixed list of bytes still
to be read (`stream`); a buffer refill (`Pipeline::fetch`) moves the whole
remaining stream into the parse buffer (capacity is not modelled), and a
refill attempted with nothing left to read is modelled as an I/O error.
Query transmission (`Connection::send`) is modelled as always succeeding in
the pipeline driver; the queue-level `flush` is additionally modelled
against an arbitrary, possibly failing, stateful send callback.
-/

/-- Bytes of a string literal (ASCII in all uses here). -/
def byteStr (s : String) : List Nat :=
  s.toList.map Char.toNat

/-- The end-of-response marker `\nC\n` (`EOR` in `src/parse.rs`). -/
def eorB : List Nat := [10, 67, 10]

/-- Boolean prefix test on byte lists. -/
def prefixOfB : List Nat → List Nat → Bool
  | [], _ => true
  | _ :: _, [] => false
  | x :: xs, y :: ys => x == y && prefixOfB xs ys

/-- nom `ErrorKind` values that the embedded parsers can produce. -/
inductive ErrKind where
  | char
  | digit
  | tag
  | takeTill1
  | mapRes
  deriving DecidableEq, Repr

/-- Result of a nom streaming parser: definite success with the remaining
input, a recoverable syntactic failure (`nom::Err::Error`), or
`nom::Err::Incomplete`.  (None of the parsers in `src/parse.rs` can produce
`nom::Err::Failure`.) -/
inductive PResult (α : Type) where
  | ok (rem : List Nat) (val : α)
  | err (kind : ErrKind)
  | incomplete
  deriving DecidableEq, Repr

/-- nom `character::streaming::char`: one exact byte. -/
def pChar (c : Nat) (input : List Nat) : PResult Nat :=
  match input with
  | [] => .incomplete
  | b :: rest => if b == c then .ok rest b else .err .char

/-- ASCII decimal digit predicate. -/
def isDigitB (b : Nat) : Bool := 48 ≤ b && b ≤ 57

/-- nom `character::streaming::digit1`: one or more ASCII digits; incomplete
when the digits run to the end of the input. -/
def pDigit1 (input : List Nat) : PResult (List Nat) :=
  match input with
  | [] => .incomplete
  | b :: _ =>
    if isDigitB b then
      if input.dropWhile isDigitB = [] then .incomplete
      else .ok (input.dropWhile isDigitB) (input.takeWhile isDigitB)
    else .err .digit

/-- SPACE or TAB, the byte classes recognised by nom's `space0`. -/
def isSpaceTab (b : Nat) : Bool := b == 32 || b == 9

/-- nom `character::streaming::space0`: zero or more SPACE/TAB bytes;
incomplete when they run to the end of the input. -/
def pSpace0 (input : List Nat) : PResult (List Nat) :=
  if input.dropWhile isSpaceTab = [] then .incomplete
  else .ok (input.dropWhile isSpaceTab) (input.takeWhile isSpaceTab)

/-- nom `bytes::streaming::take_till`: bytes until the predicate holds;
incomplete when the end of input is reached first. -/
def pTakeTill (p : Nat → Bool) (input : List Nat) : PResult (List Nat) :=
  if input.dropWhile (fun b => !p b) = [] then .incomplete
  else .ok (input.dropWhile (fun b => !p b)) (input.takeWhile (fun b => !p b))

/-- nom `bytes::streaming::take_till1`: like `take_till` but the taken
prefix must be non-empty. -/
def pTakeTill1 (p : Nat → Bool) (input : List Nat) : PResult (List Nat) :=
  if input.takeWhile (fun b => !p b) = [] then
    (if input = [] then .incomplete else .err .takeTill1)
  else if input.dropWhile (fun b => !p b) = [] then .incomplete
  else .ok (input.dropWhile (fun b => !p b)) (input.takeWhile (fun b => !p b))

/-- nom `bytes::streaming::tag`: an exact byte sequence; incomplete when the
input is a proper prefix of the tag. -/
def pTag (t : List Nat) (input : List Nat) : PResult (List Nat) :=
  if prefixOfB t input then .ok (input.drop t.length) t
  else if prefixOfB input t then .incomplete
  else .err .tag

/-- Split the input at the first occurrence of `pat`: returns the bytes
before the occurrence and the suffix starting with `pat`. -/
def splitUntil (pat : List Nat) : List Nat → Option (List Nat × List Nat)
  | [] => if prefixOfB pat [] then some ([], []) else none
  | b :: rest =>
    if prefixOfB pat (b :: rest) then some ([], b :: rest)
    else (splitUntil pat rest).map fun pr => (b :: pr.1, pr.2)

/-- nom `bytes::streaming::take_until`: bytes before the first occurrence of
`pat`; incomplete when `pat` does not occur. -/
def pTakeUntil (pat : List Nat) (input : List Nat) : PResult (List Nat) :=
  match splitUntil pat input with
  | some (pre, suf) => .ok suf pre
  | none => .incomplete

/-- Server response statuses (`ResponseError` in `src/error.rs`): the `D`,
`E` and `F <message>` replies. -/
inductive ResponseError where
  | KeyNotFound
  | KeyNotUnique
  | Other (msg : List Nat)
  deriving DecidableEq, Repr

instance exceptDecEq {ε α : Type} [DecidableEq ε] [DecidableEq α] :
    DecidableEq (Except ε α)
  | .ok a, .ok b =>
    if h : a = b then .isTrue (by rw [h]) else .isFalse (by simp [h])
  | .ok _, .error _ => .isFalse (by simp)
  | .error _, .ok _ => .isFalse (by simp)
  | .error e, .error f =>
    if h : e = f then .isTrue (by rw [h]) else .isFalse (by simp [h])

/-- Alias for `type ResponseResult = Result<Option<usize>, ResponseError>` from
`src/parse.rs`. -/
def ResponseResult : Type := Except ResponseError (Option Nat)

instance : DecidableEq ResponseResult := by
  unfold ResponseResult; infer_instance

/-- Numeric value of an ASCII digit string. -/
def natOfDigits (ds : List Nat) : Nat :=
  ds.foldl (fun acc d => acc * 10 + (d - 48)) 0

/-- Largest `usize` value (the crate targets 64-bit platforms):
`<decimal>.parse::<usize>()` fails with overflow above this. -/
def usizeMax : Nat := 2 ^ 64 - 1

/-- Parser `resp_ok_data` from `src/parse.rs`: `A<decimal>\n`, where the decimal is
parsed as a `usize` (`map_res` failure on overflow). -/
def resp_ok_data (input : List Nat) : PResult ResponseResult :=
  match pChar 65 input with
  | .ok rem _ =>
    match pDigit1 rem with
    | .ok rem2 ds =>
      if natOfDigits ds ≤ usizeMax then
        match pChar 10 rem2 with
        | .ok rem3 _ => .ok rem3 (.ok (some (natOfDigits ds)))
        | .err k => .err k
        | .incomplete => .incomplete
      else .err .mapRes
    | .err k => .err k
    | .incomplete => .incomplete
  | .err k => .err k
  | .incomplete => .incomplete

/-- Parser `resp_ok_none` from `src/parse.rs`: `C\n`. -/
def resp_ok_none (input : List Nat) : PResult ResponseResult :=
  match pChar 67 input with
  | .ok rem _ =>
    match pChar 10 rem with
    | .ok rem2 _ => .ok rem2 (.ok none)
    | .err k => .err k
    | .incomplete => .incomplete
  | .err k => .err k
  | .incomplete => .incomplete

/-- Parser `resp_err_not_found` from `src/parse.rs`: `D\n`. -/
def resp_err_not_found (input : List Nat) : PResult ResponseResult :=
  match pChar 68 input with
  | .ok rem _ =>
    match pChar 10 rem with
    | .ok rem2 _ => .ok rem2 (.error .KeyNotFound)
    | .err k => .err k
    | .incomplete => .incomplete
  | .err k => .err k
  | .incomplete => .incomplete

/-- Parser `resp_err_not_unique` from `src/parse.rs`: `E\n`. -/
def resp_err_not_unique (input : List Nat) : PResult ResponseResult :=
  match pChar 69 input with
  | .ok rem _ =>
    match pChar 10 rem with
    | .ok rem2 _ => .ok rem2 (.error .KeyNotUnique)
    | .err k => .err k
    | .incomplete => .incomplete
  | .err k => .err k
  | .incomplete => .incomplete

/-- Validity of a byte list as UTF-8, as checked by Rust's
`str::from_utf8`. -/
def validUtf8 : List Nat → Bool
  | [] => true
  | b :: rest =>
    if b < 0x80 then validUtf8 rest
    else if 0xC2 ≤ b && b ≤ 0xDF then
      match rest with
      | c1 :: rest' => (0x80 ≤ c1 && c1 ≤ 0xBF) && validUtf8 rest'
      | [] => false
    else if b == 0xE0 then
      match rest with
      | c1 :: c2 :: rest' =>
        (0xA0 ≤ c1 && c1 ≤ 0xBF) && (0x80 ≤ c2 && c2 ≤ 0xBF) && validUtf8 rest'
      | _ => false
    else if (0xE1 ≤ b && b ≤ 0xEC) || b == 0xEE || b == 0xEF then
      match rest with
      | c1 :: c2 :: rest' =>
        (0x80 ≤ c1 && c1 ≤ 0xBF) && (0x80 ≤ c2 && c2 ≤ 0xBF) && validUtf8 rest'
      | _ => false
    else if b == 0xED then
      match rest with
      | c1 :: c2 :: rest' =>
        (0x80 ≤ c1 && c1 ≤ 0x9F) && (0x80 ≤ c2 && c2 ≤ 0xBF) && validUtf8 rest'
      | _ => false
    else if b == 0xF0 then
      match rest with
      | c1 :: c2 :: c3 :: rest' =>
        (0x90 ≤ c1 && c1 ≤ 0xBF) && (0x80 ≤ c2 && c2 ≤ 0xBF) &&
          (0x80 ≤ c3 && c3 ≤ 0xBF) && validUtf8 rest'
      | _ => false
    else if 0xF1 ≤ b && b ≤ 0xF3 then
      match rest with
      | c1 :: c2 :: c3 :: rest' =>
        (0x80 ≤ c1 && c1 ≤ 0xBF) && (0x80 ≤ c2 && c2 ≤ 0xBF) &&
          (0x80 ≤ c3 && c3 ≤ 0xBF) && validUtf8 rest'
      | _ => false
    else if b == 0xF4 then
      match rest with
      | c1 :: c2 :: c3 :: rest' =>
        (0x80 ≤ c1 && c1 ≤ 0x8F) && (0x80 ≤ c2 && c2 ≤ 0xBF) &&
          (0x80 ≤ c3 && c3 ≤ 0xBF) && validUtf8 rest'
      | _ => false
    else false

/-- Parser `resp_err_other` from `src/parse.rs`: `F <message>\n` with a UTF-8
message (`map_res(…, from_utf8)`). -/
def resp_err_other (input : List Nat) : PResult ResponseResult :=
  match pChar 70 input with
  | .ok rem _ =>
    match pChar 32 rem with
    | .ok rem2 _ =>
      match pTakeTill (fun b => b == 10) rem2 with
      | .ok rem3 msg =>
        match pChar 10 rem3 with
        | .ok rem4 _ =>
          if validUtf8 msg then .ok rem4 (.error (.Other msg)) else .err .mapRes
        | .err k => .err k
        | .incomplete => .incomplete
      | .err k => .err k
      | .incomplete => .incomplete
    | .err k => .err k
    | .incomplete => .incomplete
  | .err k => .err k
  | .incomplete => .incomplete

/-- The `alt((resp_ok_data, resp_ok_none, resp_err_not_found,
resp_err_not_unique, resp_err_other))` body of `response_status`: nom's
`alt` tries the next branch only on a recoverable error. -/
def response_status_alt (input : List Nat) : PResult ResponseResult :=
  match resp_ok_data input with
  | .err _ =>
    match resp_ok_none input with
    | .err _ =>
      match resp_err_not_found input with
      | .err _ =>
        match resp_err_not_unique input with
        | .err _ => resp_err_other input
        | r => r
      | r => r
    | r => r
  | r => r

/-- Parser `response_status` from `src/parse.rs`: the preamble parser, returning
the consumed length (`consumed(…)`) and the structured outcome. -/
def response_status (input : List Nat) : PResult (Nat × ResponseResult) :=
  match response_status_alt input with
  | .ok rem v => .ok rem (input.length - rem.length, v)
  | .err k => .err k
  | .incomplete => .incomplete

/-- Parser `end_of_response` from `src/parse.rs`: `consumed(tag(EOR))`. -/
def end_of_response (input : List Nat) : PResult Nat :=
  match pTag eorB input with
  | .ok rem _ => .ok rem (input.length - rem.length)
  | .err k => .err k
  | .incomplete => .incomplete

/-- The byte class ending a word: SPACE or `\n` (`till_word_end`'s
closure `|b| b == b' ' || b == b'\n'`). -/
def isWordEndB (b : Nat) : Bool := b == 32 || b == 10

/-- Parser `till_word_end` from `src/parse.rs`: `take_till1(b == b' ' || b ==
b'\n')`. -/
def till_word_end (input : List Nat) : PResult (List Nat) :=
  pTakeTill1 isWordEndB input

/-- Parser `take_word_strip` from `src/parse.rs`: a word followed by `space0`. -/
def take_word_strip (input : List Nat) : PResult (List Nat) :=
  match till_word_end input with
  | .ok rem res =>
    match pSpace0 rem with
    | .ok rem2 _ => .ok rem2 res
    | .err k => .err k
    | .incomplete => .incomplete
  | .err k => .err k
  | .incomplete => .incomplete

/-- Parser `word` from `src/parse.rs`: `consumed(take_word_strip)`. -/
def word (input : List Nat) : PResult (Nat × List Nat) :=
  match take_word_strip input with
  | .ok rem w => .ok rem (input.length - rem.length, w)
  | .err k => .err k
  | .incomplete => .incomplete

/-- Parser `all` from `src/parse.rs`: `consumed(take_until(EOR))`. -/
def all (input : List Nat) : PResult (Nat × List Nat) :=
  match pTakeUntil eorB input with
  | .ok rem res => .ok rem (input.length - rem.length, res)
  | .err k => .err k
  | .incomplete => .incomplete

/-- Parser `noop` from `src/parse.rs`: consumes nothing. -/
def noop (input : List Nat) : PResult (Nat × List Nat) :=
  .ok input (0, [])

/-- The body of `take_paragraph` after `opt(newline)` has been applied:
`take_until("\n\n")` followed by `newline`, falling back on failure to
`take_until(EOR)` (returning the original error when that fails too). -/
def take_paragraph_tail (rem : List Nat) : PResult (List Nat) :=
  match pTakeUntil [10, 10] rem with
  | .ok rem1 res =>
    match pChar 10 rem1 with
    | .ok rem2 _ => .ok rem2 res
    | .err k => .err k
    | .incomplete => .incomplete
  | e =>
    match pTakeUntil eorB rem with
    | .ok rem1 res => .ok rem1 res
    | _ => e

/-- Parser `take_paragraph` from `src/parse.rs`: an optional leading newline
(`opt(newline)`, which propagates `Incomplete` on empty input), then
`take_paragraph_tail`. -/
def take_paragraph (input : List Nat) : PResult (List Nat) :=
  match input with
  | [] => .incomplete
  | b :: rest => take_paragraph_tail (if b == 10 then rest else b :: rest)

/-- Parser `paragraph` from `src/parse.rs`: `consumed(take_paragraph)`. -/
def paragraph (input : List Nat) : PResult (Nat × List Nat) :=
  match take_paragraph input with
  | .ok rem res => .ok rem (input.length - rem.length, res)
  | .err k => .err k
  | .incomplete => .incomplete

/-- Enum `RpslObjectClass` from `src/query.rs`. -/
inductive RpslObjectClass where
  | Mntner
  | Person
  | Role
  | Route
  | Route6
  | AutNum
  | InetRtr
  | AsSet
  | RouteSet
  | FilterSet
  | RtrSet
  | PeeringSet
  deriving DecidableEq, Repr

/-- The `strum::Display` rendering of `RpslObjectClass`. -/
def RpslObjectClass.display : RpslObjectClass → List Char
  | .Mntner => "mntner".toList
  | .Person => "person".toList
  | .Role => "role".toList
  | .Route => "route".toList
  | .Route6 => "route6".toList
  | .AutNum => "aut-num".toList
  | .InetRtr => "inet-rtr".toList
  | .AsSet => "as-set".toList
  | .RouteSet => "route-set".toList
  | .FilterSet => "filter-set".toList
  | .RtrSet => "rtr-set".toList
  | .PeeringSet => "peering-set".toList

/-- The `Query` catalogue from `src/query.rs`.  The opaque RPSL name types
(`AsSet`, `AutNum`, `Mntner`, `RouteSet`) and prefix/key strings are
modelled by their `Display` rendering (`List Char`); a `Duration` is
modelled by its whole-second count (`dur.as_secs()`). -/
inductive Query where
  | Version
  | SetClientId (id : List Char)
  | SetTimeout (secs : Nat)
  | GetSources
  | SetSources (sources : List (List Char))
  | UnsetSources
  | AsSetMembers (q : List Char)
  | AsSetMembersRecursive (q : List Char)
  | RouteSetMembers (q : List Char)
  | RouteSetMembersRecursive (q : List Char)
  | Ipv4Routes (q : List Char)
  | Ipv6Routes (q : List Char)
  | RpslObject (cls : RpslObjectClass) (q : List Char)
  | MntBy (q : List Char)
  | Origins (q : List Char)
  | RoutesExact (q : List Char)
  | RoutesLess (q : List Char)
  | RoutesLessEqual (q : List Char)
  | RoutesMore (q : List Char)
  deriving DecidableEq, Repr

/-- Method `Query::cmd` from `src/query.rs`: the rendered wire command. -/
def Query.cmd : Query → List Char
  | .Version => "!v\n".toList
  | .SetClientId id => "!n".toList ++ id ++ "\n".toList
  | .SetTimeout secs => "!t".toList ++ (Nat.repr secs).toList ++ "\n".toList
  | .GetSources => "!s-lc\n".toList
  | .SetSources sources => "!s".toList ++ List.intercalate ",".toList sources ++ "\n".toList
  | .UnsetSources => "!s-*\n".toList
  | .AsSetMembers q => "!i".toList ++ q ++ "\n".toList
  | .AsSetMembersRecursive q => "!i".toList ++ q ++ ",1\n".toList
  | .RouteSetMembers q => "!i".toList ++ q ++ "\n".toList
  | .RouteSetMembersRecursive q => "!i".toList ++ q ++ ",1\n".toList
  | .Ipv4Routes q => "!g".toList ++ q ++ "\n".toList
  | .Ipv6Routes q => "!6".toList ++ q ++ "\n".toList
  | .RpslObject cls q => "!m".toList ++ cls.display ++ ",".toList ++ q ++ "\n".toList
  | .MntBy q => "!o".toList ++ q ++ "\n".toList
  | .Origins q => "!r".toList ++ q ++ ",o\n".toList
  | .RoutesExact q => "!r".toList ++ q ++ "\n".toList
  | .RoutesLess q => "!r".toList ++ q ++ ",l\n".toList
  | .RoutesLessEqual q => "!r".toList ++ q ++ ",L\n".toList
  | .RoutesMore q => "!r".toList ++ q ++ ",M\n".toList

/-- Method `Query::expect_data` from `src/query.rs`: whether a data payload is
expected for this query. -/
def Query.expect_data : Query → Bool
  | .Version
  | .GetSources
  | .AsSetMembers _
  | .RouteSetMembers _
  | .AsSetMembersRecursive _
  | .RouteSetMembersRecursive _
  | .Ipv4Routes _
  | .Ipv6Routes _
  | .RpslObject _ _
  | .MntBy _
  | .Origins _
  | .RoutesExact _
  | .RoutesLess _
  | .RoutesLessEqual _
  | .RoutesMore _ => true
  | _ => false

/-- The error variants of `irrc::error::Error` used by the pipeline
(`src/pipeline/mod.rs`); `ParseItem` carries the consumed length of the
offending item (the `SizedItemParse` wrapper), and `Io` stands for any
transport error. -/
inductive Error where
  | ResponseErr (q : Query) (e : ResponseError)
  | UnexpectedData (q : Query) (len : Nat)
  | ResponseDataUnderrun (seen expect : Nat)
  | ResponseDataOverrun (seen expect : Nat)
  | ConsumedResponse
  | Incomplete
  | ParseErr
  | ParseFailure
  | ParseItem (consumed : Nat)
  | Io
  | Dequeue
  deriving DecidableEq, Repr

/-- Method `Query::parse_item` from `src/query.rs`: select the framing parser by
variant (`noop` when no data is expected, `all` for `Version`, `paragraph`
for the RPSL-object queries, `word` otherwise), then decode the framed
bytes as UTF-8 (an invalid item surfaces as a sized item-parse error that
still reports its consumed length).  The caller-supplied content type `T`
is modelled as the decoded string itself (`T = String` never fails to
parse). -/
def Query.parse_item (q : Query) (input : List Nat) : Except Error (Nat × List Nat) :=
  match
    (if !q.expect_data then noop input
     else match q with
       | .Version => all input
       | .RpslObject _ _ | .MntBy _ | .RoutesExact _ | .RoutesLess _
       | .RoutesLessEqual _ | .RoutesMore _ => paragraph input
       | _ => word input) with
  | .ok _ (consumed, item) =>
    if validUtf8 item then .ok (consumed, item)
    else .error (.ParseItem consumed)
  | .incomplete => .error .Incomplete
  | .err _ => .error .ParseErr

/-- The send queue from `src/pipeline/queue.rs`: the ordered outstanding
queries, the count of already-transmitted queries, and the flush
thresholds. -/
structure Queue where
  q : List Query
  in_flight : Nat
  max_in_flight : Nat
  min_batch : Nat
  deriving DecidableEq, Repr

/-- Constructor `Queue::default()`: empty, with `max_in_flight = 1000` and
`min_batch = 100`. -/
def Queue.default : Queue :=
  ⟨[], 0, 1000, 100⟩

/-- Method `Queue::push`: enqueue at the back. -/
def Queue.push (Q : Queue) (query : Query) : Queue :=
  { Q with q := Q.q ++ [query] }

/-- The `try_for_each` loop inside `Queue::flush`: feed the batch to the
(stateful, fallible) send callback, counting the successfully sent
queries, and stopping at the first failure.  Returns the success count,
the final callback state, and the error if one occurred. -/
def sendAll {σ ε : Type} (f : σ → Query → Except ε σ) :
    σ → List Query → Nat × σ × Option ε
  | s, [] => (0, s, none)
  | s, x :: xs =>
    match f s x with
    | .error e => (0, s, some e)
    | .ok s' =>
      ((sendAll f s' xs).1 + 1, (sendAll f s' xs).2.1, (sendAll f s' xs).2.2)

/-- Method `Queue::flush` from `src/pipeline/queue.rs`: nothing to do when all
queries are in flight; send nothing while the remaining window capacity is
below `min_batch`; otherwise send the queries from position `in_flight` up
to `min(in_flight + capacity, len)`, incrementing `in_flight` once per
successful send and propagating the callback's error. -/
def Queue.flush {σ ε : Type} (Q : Queue) (f : σ → Query → Except ε σ) (s : σ) :
    Queue × σ × Option ε :=
  if Q.in_flight = Q.q.length then (Q, s, none)
  else if Q.max_in_flight - Q.in_flight ≥ Q.min_batch then
    ({ Q with in_flight := Q.in_flight + (sendAll f s ((Q.q.drop Q.in_flight).take
        (min (Q.in_flight + (Q.max_in_flight - Q.in_flight)) Q.q.length
          - Q.in_flight))).1 },
     (sendAll f s ((Q.q.drop Q.in_flight).take
        (min (Q.in_flight + (Q.max_in_flight - Q.in_flight)) Q.q.length
          - Q.in_flight))).2.1,
     (sendAll f s ((Q.q.drop Q.in_flight).take
        (min (Q.in_flight + (Q.max_in_flight - Q.in_flight)) Q.q.length
          - Q.in_flight))).2.2)
  else (Q, s, none)

/-- Method `Queue::pop` from `src/pipeline/queue.rs`: remove and return the head
query only when `in_flight > 0` (the head is then in flight; the source
unwraps `pop_front` relying on `in_flight ≤ len`). -/
def Queue.pop (Q : Queue) : Option Query × Queue :=
  if Q.in_flight > 0 then
    match Q.q with
    | [] => (none, Q)
    | x :: rest => (some x, { Q with q := rest, in_flight := Q.in_flight - 1 })
  else (none, Q)

/-- Applying the send callback successively to a list of queries, stopping
with `none` at the first failure (the successfully-sent prefix). -/
def chainOk {σ ε : Type} (f : σ → Query → Except ε σ) : σ → List Query → Option σ
  | s, [] => some s
  | s, x :: xs =>
    match f s x with
    | .ok s' => chainOk f s' xs
    | .error _ => none

/-- A send callback that succeeds on its first call and fails on its
second (the state counts successful sends). -/
def failingSend (s : Nat) (_q : Query) : Except Unit Nat :=
  if s = 1 then .error () else .ok (s + 1)

/-- Pipeline state: the send queue, the parse buffer contents, and the
bytes the server connection has yet to deliver.  The connection's `read`
is modelled by moving the whole remaining stream into the buffer; `send`
is modelled as always succeeding. -/
structure PipeState where
  queue : Queue
  buf : List Nat
  stream : List Nat
  deriving DecidableEq, Repr

/-- Method `Pipeline::flush` with the connection write modelled as always
succeeding: only `in_flight` advances. -/
def flushOk (Q : Queue) : Queue :=
  (Q.flush (fun (_ : Unit) _ => (Except.ok () : Except Unit Unit)) ()).1

/-- The preamble-handling loop of `Pipeline::pop_wrapped`: try
`response_status` on the buffer; on `Incomplete` refill once from the
stream and retry; a parse error is fatal (`ParseErr`), and an exhausted
stream is a transport error (`Io`). -/
def runStatus (st : PipeState) : Except Error (ResponseResult × PipeState) :=
  match response_status st.buf with
  | .ok _ (consumed, r) => .ok (r, { st with buf := st.buf.drop consumed })
  | .err _ => .error .ParseErr
  | .incomplete =>
    if st.stream = [] then .error .Io
    else
      match response_status (st.buf ++ st.stream) with
      | .ok _ (consumed, r) =>
        .ok (r, ⟨st.queue, (st.buf ++ st.stream).drop consumed, []⟩)
      | .err _ => .error .ParseErr
      | .incomplete => .error .Io

/-- The possible outcomes of `Pipeline::pop_wrapped`. -/
inductive PopOut where
  | idle
  | resp (q : Query) (expect : Nat)
  | errServer (q : Query) (e : ResponseError)
  | errUnexpectedData (q : Query) (len : Nat)
  | errFatal (e : Error)
  deriving DecidableEq, Repr

/-- Method `Pipeline::pop_wrapped` from `src/pipeline/mod.rs`: flush, pop the
queue head (nothing to do when no query is in flight), parse the preamble,
convert a `D/E/F` status into a `ResponseErr` carrying the popped query,
and cross-check the declared length against `expect_data` (an `A<n>` with
`n > 0` for a no-data query is `UnexpectedData`; `A0` for a data query is
a successful empty response). -/
def popStep (st : PipeState) : PopOut × PipeState :=
  match (flushOk st.queue).pop with
  | (none, Q2) => (.idle, { st with queue := Q2 })
  | (some query, Q2) =>
    match runStatus { st with queue := Q2 } with
    | .error e => (.errFatal e, { st with queue := Q2 })
    | .ok (r, st3) =>
      match r with
      | .error e => (.errServer query e, st3)
      | .ok optLen =>
        match optLen with
        | some len =>
          if query.expect_data then (.resp query len, st3)
          else if len = 0 then (.resp query 0, st3)
          else (.errUnexpectedData query len, st3)
        | none =>
          if query.expect_data then (.resp query 0, st3)
          else (.resp query 0, st3)

/-- The mutable fields of a `Response<T>`: its query, the declared length,
the bytes seen so far, and the fused flag. -/
structure RespState where
  query : Query
  expect : Nat
  seen : Nat
  finished : Bool
  deriving DecidableEq, Repr

/-- The outcomes of `Response::next_or_yield`: an item (or per-item
error), the pipeline yielded back, a wrapped fatal response error, or
"already finished". -/
inductive NYOut where
  | item (r : Except Error (List Nat))
  | yieldPipe
  | errWrap (e : Error)
  | finished
  deriving DecidableEq, Repr

/-- One iteration of the loop inside `Response::next_or_yield`, without
refill: EOR check first (consume and fuse; underrun when
`seen + 1 ≠ expect`), then the overrun check, then the variant's framing
parser (`none` means the buffer must be refilled: `Incomplete` or a
recoverable `ParseErr`). -/
def nyIter (rs : RespState) (buf : List Nat) :
    Option (NYOut × RespState × List Nat) :=
  match end_of_response buf with
  | .ok _ consumed =>
    some
      (if rs.expect = rs.seen + 1 then .yieldPipe
       else .errWrap (.ResponseDataUnderrun rs.seen rs.expect),
       { rs with finished := true }, buf.drop consumed)
  | _ =>
    if rs.seen > rs.expect then
      some (.errWrap (.ResponseDataOverrun rs.seen rs.expect),
        { rs with finished := true }, buf)
    else
      match rs.query.parse_item buf with
      | .ok (consumed, content) =>
        some (.item (.ok content),
          { rs with seen := rs.seen + consumed }, buf.drop consumed)
      | .error (.ParseItem consumed) =>
        some (.item (.error (.ParseItem consumed)),
          { rs with seen := rs.seen + consumed }, buf.drop consumed)
      | .error .Incomplete => none
      | .error .ParseErr => none
      | .error e => some (.item (.error e), rs, buf)

/-- Method `Response::next_or_yield` from `src/pipeline/mod.rs`: finished
responses report `Finished`; a no-data query or a declared length of zero
fuses and yields the pipeline back; otherwise run the loop, refilling the
buffer (at most once in this model, since a refill transfers the whole
remaining stream) when the framing parser reports incomplete/recoverable,
and surfacing a refill failure as a per-item transport error. -/
def nextOrYield (rs : RespState) (st : PipeState) :
    NYOut × RespState × PipeState :=
  if rs.finished then (.finished, rs, st)
  else if rs.query.expect_data then
    if rs.expect = 0 then (.yieldPipe, { rs with finished := true }, st)
    else
      match nyIter rs st.buf with
      | some (out, rs', buf') => (out, rs', { st with buf := buf' })
      | none =>
        if st.stream = [] then (.item (.error .Io), rs, st)
        else
          match nyIter rs (st.buf ++ st.stream) with
          | some (out, rs', buf') => (out, rs', { st with buf := buf', stream := [] })
          | none =>
            (.item (.error .Io), rs, { st with buf := st.buf ++ st.stream, stream := [] })
  else (.yieldPipe, { rs with finished := true }, st)

/-- Events observed while driving `Responses::next` to exhaustion, each
tagged (in `runLoop`) with the index of the pop it belongs to. -/
inductive Event where
  | popped (q : Query)
  | item (q : Query) (content : List Nat)
  | itemErr (e : Error)
  | serverErr (q : Query) (e : ResponseError)
  | unexpectedData (q : Query) (len : Nat)
  | fatal (e : Error)
  deriving DecidableEq, Repr

/-- The query carried by an event, when it carries one. -/
def Event.queryOf : Event → Option Query
  | .popped q => some q
  | .item q _ => some q
  | .serverErr q _ => some q
  | .unexpectedData q _ => some q
  | .itemErr _ => none
  | .fatal _ => none

/-- The `Responses::next` driver from `src/pipeline/mod.rs`, run to
exhaustion (with fuel): drive the current response — an item extends the
trace, yielding reclaims the pipeline, a wrapped error is surfaced and the
response dropped — and otherwise pop the next response, surfacing pop
errors without stopping.  `count` is the number of pops performed so far;
every event is tagged with the index of the pop it belongs to. -/
def runLoop : Nat → PipeState → Nat → Option RespState → List (Nat × Event)
  | 0, _, _, _ => []
  | fuel + 1, st, count, some rs =>
    match nextOrYield rs st with
    | (.item (.ok content), rs', st') =>
      (count - 1, .item rs.query content) :: runLoop fuel st' count (some rs')
    | (.item (.error e), rs', st') =>
      (count - 1, .itemErr e) :: runLoop fuel st' count (some rs')
    | (.yieldPipe, _, st') => runLoop fuel st' count none
    | (.errWrap e, _, st') => (count - 1, .fatal e) :: runLoop fuel st' count none
    | (.finished, _, st') => runLoop fuel st' count none
  | fuel + 1, st, count, none =>
    match popStep st with
    | (.idle, _) => []
    | (.resp q expect, st') =>
      (count, .popped q) :: runLoop fuel st' (count + 1) (some ⟨q, expect, 0, false⟩)
    | (.errServer q e, st') =>
      (count, .serverErr q e) :: runLoop fuel st' (count + 1) none
    | (.errUnexpectedData q len, st') =>
      (count, .unexpectedData q len) :: runLoop fuel st' (count + 1) none
    | (.errFatal e, st') =>
      (count, .fatal e) :: runLoop fuel st' (count + 1) none

/-- Method `Pipeline::push` for a whole list of queries (enqueue then flush, per
query), starting from `Queue::default()`. -/
def pushAllQueue (qs : List Query) : Queue :=
  qs.foldl (fun Q query => flushOk (Q.push query)) Queue.default

/-- Push the given queries onto a fresh pipeline, then iterate
`responses` to exhaustion against the given server byte stream. -/
def runPipeline (qs : List Query) (stream : List Nat) (fuel : Nat) :
    List (Nat × Event) :=
  runLoop fuel ⟨pushAllQueue qs, [], stream⟩ 0 none

/-- C2: preamble parser outcomes on the six catalogue inputs. -/
theorem c2_response_status_roundtrip :
    response_status (byteStr "A0\n") = .ok [] (3, .ok (some 0))
    ∧ response_status (byteStr "A101\n") = .ok [] (5, .ok (some 101))
    ∧ response_status (byteStr "C\n") = .ok [] (2, .ok none)
    ∧ response_status (byteStr "D\n") = .ok [] (2, .error .KeyNotFound)
    ∧ response_status (byteStr "E\n") = .ok [] (2, .error .KeyNotUnique)
    ∧ response_status (byteStr "F foo\n") = .ok [] (6, .error (.Other (byteStr "foo"))) := by
  decide

lemma pTakeTill1_ok {p : Nat → Bool} {input rem w : List Nat}
    (h : pTakeTill1 p input = .ok rem w) :
    w = input.takeWhile (fun b => !p b) ∧ w ≠ []
      ∧ rem = input.dropWhile (fun b => !p b) := by
  unfold pTakeTill1 at h
  split at h
  · split at h <;> cases h
  · split at h
    · cases h
    · cases h
      refine ⟨rfl, by assumption, rfl⟩

lemma pSpace0_ok {input rem sp : List Nat}
    (h : pSpace0 input = .ok rem sp) :
    sp = input.takeWhile isSpaceTab ∧ rem = input.dropWhile isSpaceTab := by
  unfold pSpace0 at h
  split at h
  · cases h
  · cases h
    exact ⟨rfl, rfl⟩

lemma take_word_strip_ok {input rem w : List Nat}
    (h : take_word_strip input = .ok rem w) :
    w = input.takeWhile (fun b => !isWordEndB b) ∧ w ≠ []
      ∧ rem = (input.dropWhile (fun b => !isWordEndB b)).dropWhile isSpaceTab := by
  cases h1 : till_word_end input with
  | ok rem1 res =>
    cases h2 : pSpace0 rem1 with
    | ok rem2 sp =>
      simp only [take_word_strip, h1, h2, PResult.ok.injEq] at h
      obtain ⟨e1, e2⟩ := h
      obtain ⟨hw, hne, hrem1⟩ := pTakeTill1_ok h1
      obtain ⟨_, hrem2⟩ := pSpace0_ok h2
      subst e1 e2 hrem1
      exact ⟨hw, hne, hrem2⟩
    | err k => simp only [take_word_strip, h1, h2] at h; cases h
    | incomplete => simp only [take_word_strip, h1, h2] at h; cases h
  | err k => simp only [take_word_strip, h1] at h; cases h
  | incomplete => simp only [take_word_strip, h1] at h; cases h

/-- C8 (counterexample): on the input `"foo \tx"` the `word` parser
succeeds, exactly one SPACE byte immediately follows the word, but the
consumed length is 5, not the word's length plus the number of following
SPACE bytes (which would be 4): nom's `space0` also strips the TAB. -/
theorem c8_counterexample :
    word (byteStr "foo \tx") = .ok (byteStr "x") (5, byteStr "foo")
    ∧ ((byteStr "foo \tx").drop (byteStr "foo").length).takeWhile (fun b => b == 32) = [32]
    ∧ 5 ≠ (byteStr "foo").length + 1 := by
  decide

/-- C8 (amended): when `word` succeeds, the returned word is the non-empty
maximal prefix up to (but not including) the first SPACE or `\n`, and the
consumed length is the word's length plus the number of immediately
following SPACE **or TAB** bytes (consumed but not returned), with the
remaining input starting after those bytes; and an input beginning with
SPACE or `\n` is a definite syntactic failure (`take_till1`'s error, not
an incomplete). -/
theorem c8_word_framing :
    (∀ (input rem : List Nat) (consumed : Nat) (w : List Nat),
      word input = .ok rem (consumed, w) →
      w ≠ []
      ∧ w = input.takeWhile (fun b => !isWordEndB b)
      ∧ consumed = w.length + ((input.drop w.length).takeWhile isSpaceTab).length
      ∧ rem = input.drop consumed)
    ∧ (∀ (b : Nat) (rest : List Nat), b = 32 ∨ b = 10 →
      word (b :: rest) = .err .takeTill1) := by
  constructor
  · intro input rem consumed w h
    cases h1 : take_word_strip input with
    | ok rem1 res =>
      simp only [word, h1, PResult.ok.injEq, Prod.mk.injEq] at h
      obtain ⟨e1, e2, e3⟩ := h
      obtain ⟨hw, hne, hrem⟩ := take_word_strip_ok h1
      subst e1 e3
      have hAB : input.takeWhile (fun b => !isWordEndB b)
          ++ input.dropWhile (fun b => !isWordEndB b) = input :=
        List.takeWhile_append_dropWhile _ _
      have hCD : (input.dropWhile (fun b => !isWordEndB b)).takeWhile isSpaceTab
          ++ (input.dropWhile (fun b => !isWordEndB b)).dropWhile isSpaceTab
          = input.dropWhile (fun b => !isWordEndB b) :=
        List.takeWhile_append_dropWhile _ _
      have hdrop : input.drop (input.takeWhile (fun b => !isWordEndB b)).length
          = input.dropWhile (fun b => !isWordEndB b) := by
        have h' := List.drop_left (input.takeWhile (fun b => !isWordEndB b))
          (input.dropWhile (fun b => !isWordEndB b))
        rw [hAB] at h'
        exact h'
      have hACD : (input.takeWhile (fun b => !isWordEndB b)
          ++ (input.dropWhile (fun b => !isWordEndB b)).takeWhile isSpaceTab)
          ++ (input.dropWhile (fun b => !isWordEndB b)).dropWhile isSpaceTab = input := by
        rw [List.append_assoc, hCD, hAB]
      have hdrop2 : input.drop ((input.takeWhile (fun b => !isWordEndB b)).length
          + ((input.dropWhile (fun b => !isWordEndB b)).takeWhile isSpaceTab).length)
          = (input.dropWhile (fun b => !isWordEndB b)).dropWhile isSpaceTab := by
        have h' := List.drop_left (input.takeWhile (fun b => !isWordEndB b)
            ++ (input.dropWhile (fun b => !isWordEndB b)).takeWhile isSpaceTab)
          ((input.dropWhile (fun b => !isWordEndB b)).dropWhile isSpaceTab)
        rw [hACD, List.length_append] at h'
        exact h'
      have hlen : input.length = (input.takeWhile (fun b => !isWordEndB b)).length
          + ((input.dropWhile (fun b => !isWordEndB b)).takeWhile isSpaceTab).length
          + ((input.dropWhile (fun b => !isWordEndB b)).dropWhile isSpaceTab).length := by
        conv_lhs => rw [← hACD]
        simp only [List.length_append]
      refine ⟨hne, hw, ?_, ?_⟩
      · rw [hw, hdrop, ← e2, hrem]
        omega
      · have hcons : consumed
            = (input.takeWhile (fun b => !isWordEndB b)).length
            + ((input.dropWhile (fun b => !isWordEndB b)).takeWhile isSpaceTab).length := by
          rw [← e2, hrem]; omega
        rw [hcons, hdrop2, hrem]
    | err k => simp only [word, h1] at h; cases h
    | incomplete => simp only [word, h1] at h; cases h
  · intro b rest hb
    have hp : isWordEndB b = true := by
      rcases hb with hb | hb <;> simp [isWordEndB, hb]
    have htw : (b :: rest).takeWhile (fun x => !isWordEndB x) = [] := by
      simp [List.takeWhile_cons, hp]
    have h1 : till_word_end (b :: rest) = .err .takeTill1 := by
      unfold till_word_end pTakeTill1
      rw [if_pos htw, if_neg (by simp)]
    unfold word take_word_strip
    rw [h1]

/-- C8 (witness): instantiating `c8_word_framing` at the success input
`"foo bar"` and at the definite-failure input `" foo"`. -/
theorem c8_word_framing_witness :
    (byteStr "foo" ≠ []
      ∧ byteStr "foo" = (byteStr "foo bar").takeWhile (fun b => !isWordEndB b)
      ∧ 4 = (byteStr "foo").length
          + (((byteStr "foo bar").drop (byteStr "foo").length).takeWhile isSpaceTab).length
      ∧ byteStr "bar" = (byteStr "foo bar").drop 4)
    ∧ word (32 :: byteStr "foo") = .err .takeTill1 :=
  ⟨c8_word_framing.1 (byteStr "foo bar") (byteStr "bar") 4 (byteStr "foo") (by decide),
   c8_word_framing.2 32 (byteStr "foo") (Or.inl rfl)⟩

lemma splitUntil_decomp {pat : List Nat} :
    ∀ {l pre suf : List Nat}, splitUntil pat l = some (pre, suf) →
      l = pre ++ suf ∧ prefixOfB pat suf = true := by
  intro l
  induction l with
  | nil =>
    intro pre suf h
    simp only [splitUntil] at h
    split at h
    · obtain ⟨h1, h2⟩ := Prod.mk.injEq .. ▸ Option.some.inj h
      subst h1 h2
      exact ⟨rfl, by assumption⟩
    · cases h
  | cons b rest ih =>
    intro pre suf h
    simp only [splitUntil] at h
    split at h
    · obtain ⟨h1, h2⟩ := Prod.mk.injEq .. ▸ Option.some.inj h
      subst h1 h2
      exact ⟨rfl, by assumption⟩
    · rw [Option.map_eq_some'] at h
      obtain ⟨⟨pr1, pr2⟩, hpr, heq⟩ := h
      obtain ⟨h1, h2⟩ := Prod.mk.injEq .. ▸ heq
      subst h1 h2
      obtain ⟨hdec, hpre⟩ := ih hpr
      exact ⟨by rw [List.cons_append, ← hdec], hpre⟩

lemma prefixOfB_nn {suf : List Nat} (h : prefixOfB [10, 10] suf = true) :
    ∃ t, suf = 10 :: 10 :: t := by
  match suf with
  | [] => simp [prefixOfB] at h
  | [a] => simp [prefixOfB] at h
  | a :: b :: t =>
    simp only [prefixOfB, Bool.and_eq_true, beq_iff_eq] at h
    obtain ⟨h1, h2, _⟩ := h
    subst h1 h2
    exact ⟨t, rfl⟩

lemma take_paragraph_tail_ok {rem0 rem res : List Nat}
    (h : take_paragraph_tail rem0 = .ok rem res) :
    (∃ suf, splitUntil [10, 10] rem0 = some (res, suf) ∧ suf = 10 :: rem
        ∧ rem0 = res ++ suf)
    ∨ (splitUntil [10, 10] rem0 = none ∧ splitUntil eorB rem0 = some (res, rem)
        ∧ rem0 = res ++ rem) := by
  unfold take_paragraph_tail pTakeUntil at h
  cases hnn : splitUntil [10, 10] rem0 with
  | some pr =>
    obtain ⟨pre1, suf1⟩ := pr
    obtain ⟨hdec, hpre⟩ := splitUntil_decomp hnn
    obtain ⟨t, ht⟩ := prefixOfB_nn hpre
    subst ht
    rw [hnn] at h
    simp only [pChar, beq_self_eq_true, if_pos, PResult.ok.injEq] at h
    obtain ⟨h1, h2⟩ := h
    subst h1 h2
    exact .inl ⟨10 :: 10 :: t, rfl, rfl, hdec⟩
  | none =>
    rw [hnn] at h
    cases heor : splitUntil eorB rem0 with
    | some pr =>
      obtain ⟨pre1, suf1⟩ := pr
      obtain ⟨hdec, _⟩ := splitUntil_decomp heor
      rw [heor] at h
      simp only [PResult.ok.injEq] at h
      obtain ⟨h1, h2⟩ := h
      subst h1 h2
      exact .inr ⟨rfl, rfl, hdec⟩
    | none =>
      rw [heor] at h
      cases h

/-- C9 (counterexample): on the input `"a\nC\nb\n\nc"` — which starts with
no leading newline, contains the EOR marker right after `"a"`, and contains
no `"\n\n"` before that EOR marker — the claim predicts that `paragraph`
returns the bytes `"a"` up to the EOR marker; instead the parser searches
for `"\n\n"` in the whole input, finds one after the EOR marker, and
returns `"a\nC\nb"`. -/
theorem c9_counterexample :
    paragraph (byteStr "a\nC\nb\n\nc") = .ok (byteStr "\nc") (6, byteStr "a\nC\nb")
    ∧ splitUntil eorB (byteStr "a\nC\nb\n\nc") = some (byteStr "a", byteStr "\nC\nb\n\nc")
    ∧ splitUntil [10, 10] (byteStr "a") = none
    ∧ byteStr "a\nC\nb" ≠ byteStr "a" := by
  decide

/-- C9 (amended): when `paragraph` succeeds it tolerates and consumes one
optional leading `\n`; it then returns the bytes before the first `"\n\n"`
**anywhere in the remaining input** (regardless of any earlier EOR marker),
consuming one trailing `\n` beyond the returned bytes; only when no
`"\n\n"` is present at all does it return the bytes up to the EOR marker
instead. -/
theorem c9_paragraph_framing :
    ∀ (input rem : List Nat) (consumed : Nat) (res : List Nat),
      paragraph input = .ok rem (consumed, res) →
      ∃ b rest, input = b :: rest ∧
        ((∃ suf, splitUntil [10, 10] (if b == 10 then rest else b :: rest) = some (res, suf)
            ∧ suf = 10 :: rem
            ∧ consumed = (if b == 10 then 1 else 0) + res.length + 1)
         ∨ (splitUntil [10, 10] (if b == 10 then rest else b :: rest) = none
            ∧ splitUntil eorB (if b == 10 then rest else b :: rest) = some (res, rem)
            ∧ consumed = (if b == 10 then 1 else 0) + res.length)) := by
  intro input rem consumed res h
  cases input with
  | nil => simp [paragraph, take_paragraph] at h
  | cons b rest =>
    refine ⟨b, rest, rfl, ?_⟩
    simp only [paragraph] at h
    cases htp : take_paragraph (b :: rest) with
    | ok remP resP =>
      simp only [htp, PResult.ok.injEq, Prod.mk.injEq] at h
      obtain ⟨e1, e2, e3⟩ := h
      subst e1 e3
      simp only [List.length_cons] at e2
      have htail : take_paragraph_tail (if b == 10 then rest else b :: rest)
          = .ok remP resP := htp
      rcases take_paragraph_tail_ok htail with ⟨suf, hsplit, hsuf, hdec⟩
        | ⟨hnone, hsplit, hdec⟩
      · refine .inl ⟨suf, hsplit, hsuf, ?_⟩
        subst hsuf
        have hlen := congrArg List.length hdec
        cases hb : b == 10 <;>
          simp only [hb, Bool.false_eq_true, if_true, if_false, List.length_append,
            List.length_cons] at hlen ⊢ <;>
          omega
      · refine .inr ⟨hnone, hsplit, ?_⟩
        have hlen := congrArg List.length hdec
        cases hb : b == 10 <;>
          simp only [hb, Bool.false_eq_true, if_true, if_false, List.length_append,
            List.length_cons] at hlen ⊢ <;>
          omega
    | err k => simp only [htp] at h; cases h
    | incomplete => simp only [htp] at h; cases h

/-- C9 (witness): instantiating `c9_paragraph_framing` at `"x\n\ny"`. -/
theorem c9_paragraph_framing_witness :
    ∃ b rest, byteStr "x\n\ny" = b :: rest ∧
      ((∃ suf, splitUntil [10, 10] (if b == 10 then rest else b :: rest)
            = some (byteStr "x", suf)
          ∧ suf = 10 :: byteStr "\ny"
          ∧ 2 = (if b == 10 then 1 else 0) + (byteStr "x").length + 1)
       ∨ (splitUntil [10, 10] (if b == 10 then rest else b :: rest) = none
          ∧ splitUntil eorB (if b == 10 then rest else b :: rest)
              = some (byteStr "x", byteStr "\ny")
          ∧ 2 = (if b == 10 then 1 else 0) + (byteStr "x").length)) :=
  c9_paragraph_framing (byteStr "x\n\ny") (byteStr "\ny") 2 (byteStr "x") (by decide)

lemma getLast?_append_right {l m : List Char} {c : Char} (h : m.getLast? = some c) :
    (l ++ m).getLast? = some c := by
  rw [List.getLast?_append, h]
  rfl

/-- C7: every rendered command begins with `!` and ends with `\n`;
`GetSources` renders as `!s-lc\n` and `AsSetMembersRecursive(name)` as
`!i<name>,1\n`. -/
theorem c7_cmd_rendering :
    (∀ q : Query, (Query.cmd q).head? = some '!' ∧ (Query.cmd q).getLast? = some '\n')
    ∧ Query.cmd .GetSources = "!s-lc\n".toList
    ∧ ∀ nm : List Char,
        Query.cmd (.AsSetMembersRecursive nm) = "!i".toList ++ nm ++ ",1\n".toList := by
  refine ⟨?_, rfl, fun nm => rfl⟩
  intro q
  cases q <;> refine ⟨rfl, ?_⟩ <;> simp only [Query.cmd] <;>
    first
    | rfl
    | exact getLast?_append_right (by rfl)

lemma sendAll_recording {ε : Type} :
    ∀ (l acc : List Query),
      sendAll (fun (a : List Query) query => (Except.ok (a ++ [query]) : Except ε (List Query)))
        acc l = (l.length, acc ++ l, none) := by
  intro l
  induction l with
  | nil => intro acc; simp [sendAll]
  | cons x xs ih =>
    intro acc
    simp only [sendAll, ih (acc ++ [x]), List.length_cons, List.append_assoc,
      List.singleton_append]

lemma sendAll_count_le {σ ε : Type} (f : σ → Query → Except ε σ) :
    ∀ (l : List Query) (s : σ), (sendAll f s l).1 ≤ l.length := by
  intro l
  induction l with
  | nil => intro s; simp [sendAll]
  | cons x xs ih =>
    intro s
    simp only [sendAll, List.length_cons]
    cases hf : f s x with
    | error e => simp
    | ok s' => simpa using ih s'

lemma sendAll_chainOk {σ ε : Type} (f : σ → Query → Except ε σ) :
    ∀ (l : List Query) (s : σ),
      chainOk f s (l.take (sendAll f s l).1) = some (sendAll f s l).2.1 := by
  intro l
  induction l with
  | nil => intro s; simp [sendAll, chainOk]
  | cons x xs ih =>
    intro s
    simp only [sendAll]
    cases hf : f s x with
    | error e => simp [chainOk]
    | ok s' => simpa [List.take_succ_cons, chainOk, hf] using ih s'

lemma sendAll_none_all {σ ε : Type} (f : σ → Query → Except ε σ) :
    ∀ (l : List Query) (s : σ),
      (sendAll f s l).2.2 = none → (sendAll f s l).1 = l.length := by
  intro l
  induction l with
  | nil => intro s _; simp [sendAll]
  | cons x xs ih =>
    intro s h
    simp only [sendAll] at h ⊢
    cases hf : f s x with
    | error e => rw [hf] at h; dsimp only at h; cases h
    | ok s' =>
      rw [hf] at h
      dsimp only at h ⊢
      simp [ih s' h]

lemma sendAll_some_fail {σ ε : Type} (f : σ → Query → Except ε σ) :
    ∀ (l : List Query) (s : σ) (e : ε),
      (sendAll f s l).2.2 = some e →
      ∃ x xs, l.drop (sendAll f s l).1 = x :: xs
        ∧ f (sendAll f s l).2.1 x = .error e := by
  intro l
  induction l with
  | nil => intro s e h; simp [sendAll] at h
  | cons x xs ih =>
    intro s e h
    simp only [sendAll] at h ⊢
    cases hf : f s x with
    | error e' =>
      rw [hf] at h
      dsimp only at h ⊢
      simp only [Option.some.injEq] at h
      cases h
      exact ⟨x, xs, rfl, hf⟩
    | ok s' =>
      rw [hf] at h
      dsimp only at h ⊢
      simpa [List.drop_succ_cons] using ih s' e h

/-- C5: flush sends nothing and leaves the queue unchanged while the
window capacity is below `min_batch`; otherwise it sends exactly the
queries from position `in_flight` up to the window limit
`min(max_in_flight, len)`, in order (witnessed by a recording callback);
`pop` removes and returns the head query exactly when `in_flight > 0` and
returns nothing when `in_flight = 0`. -/
theorem c5_flush_policy_and_pop_gating :
    (∀ (σ ε : Type) (f : σ → Query → Except ε σ) (s : σ) (Q : Queue),
       Q.max_in_flight - Q.in_flight < Q.min_batch → Q.flush f s = (Q, s, none))
    ∧ (∀ Q : Queue, Q.in_flight ≤ Q.max_in_flight → Q.in_flight ≤ Q.q.length →
        Q.min_batch ≤ Q.max_in_flight - Q.in_flight →
        Q.flush (fun (acc : List Query) query =>
            (Except.ok (acc ++ [query]) : Except Unit (List Query))) []
          = ({ Q with in_flight := min Q.max_in_flight Q.q.length },
             (Q.q.drop Q.in_flight).take (min Q.max_in_flight Q.q.length - Q.in_flight),
             none))
    ∧ (∀ Q : Queue, Q.in_flight = 0 → Q.pop = (none, Q))
    ∧ (∀ Q : Queue, 0 < Q.in_flight → Q.in_flight ≤ Q.q.length →
        ∃ x rest, Q.q = x :: rest
          ∧ Q.pop = (some x, { Q with q := rest, in_flight := Q.in_flight - 1 })) := by
  refine ⟨?_, ?_, ?_, ?_⟩
  · intro σ ε f s Q hcap
    unfold Queue.flush
    by_cases he : Q.in_flight = Q.q.length
    · rw [if_pos he]
    · rw [if_neg he, if_neg (by omega)]
  · intro Q h1 h2 h3
    unfold Queue.flush
    by_cases he : Q.in_flight = Q.q.length
    · rw [if_pos he]
      have hmin : min Q.max_in_flight Q.q.length = Q.in_flight := by omega
      rw [hmin, Nat.sub_self, List.take_zero]
    · rw [if_neg he, if_pos h3]
      have hupto : min (Q.in_flight + (Q.max_in_flight - Q.in_flight)) Q.q.length
          = min Q.max_in_flight Q.q.length := by omega
      rw [hupto, sendAll_recording]
      have hbl : ((Q.q.drop Q.in_flight).take
          (min Q.max_in_flight Q.q.length - Q.in_flight)).length
          = min Q.max_in_flight Q.q.length - Q.in_flight := by
        simp [List.length_take, List.length_drop]
        omega
      dsimp only
      rw [hbl]
      have hin : Q.in_flight + (min Q.max_in_flight Q.q.length - Q.in_flight)
          = min Q.max_in_flight Q.q.length := by omega
      rw [hin, List.nil_append]
  · intro Q h0
    unfold Queue.pop
    rw [if_neg (by omega)]
  · intro Q h0 hlen
    unfold Queue.pop
    rw [if_pos h0]
    cases hq : Q.q with
    | nil => rw [hq] at hlen; simp at hlen; omega
    | cons x rest =>
      exact ⟨x, rest, rfl, rfl⟩

/-- C5 (witness): instantiating `c5_flush_policy_and_pop_gating` at a
concrete two-element queue with one query already in flight. -/
theorem c5_flush_policy_and_pop_gating_witness :
    (Queue.flush ⟨[.GetSources, .Version], 1, 1000, 100⟩
        (fun (acc : List Query) query =>
          (Except.ok (acc ++ [query]) : Except Unit (List Query))) []
      = (⟨[.GetSources, .Version], 2, 1000, 100⟩, [.Version], none))
    ∧ ∃ x rest, ([Query.GetSources, Query.Version] : List Query) = x :: rest
        ∧ Queue.pop ⟨[.GetSources, .Version], 1, 1000, 100⟩
          = (some x, ⟨rest, 0, 1000, 100⟩) := by
  constructor
  · have h := c5_flush_policy_and_pop_gating.2.1 ⟨[.GetSources, .Version], 1, 1000, 100⟩
      (by decide) (by decide) (by decide)
    simpa using h
  · have h := c5_flush_policy_and_pop_gating.2.2.2 ⟨[.GetSources, .Version], 1, 1000, 100⟩
      (by decide) (by decide)
    simpa using h

/-- C10: under a possibly-failing send callback, `flush` never removes a
query and never changes the thresholds; it increments `in_flight` exactly
once per query passed successfully to the callback (the head-most pending
slice, in order), stopping at and returning the callback's error; and the
invariant `in_flight ≤ len` is preserved by `push`, `flush` (including a
failing one) and `pop`. -/
theorem c10_queue_send_consistency :
    (∀ (σ ε : Type) (f : σ → Query → Except ε σ) (s : σ) (Q : Queue),
       Q.in_flight ≤ Q.q.length →
       Q.min_batch ≤ Q.max_in_flight - Q.in_flight →
       ∃ k s',
         (Q.flush f s).1.q = Q.q
         ∧ (Q.flush f s).1.max_in_flight = Q.max_in_flight
         ∧ (Q.flush f s).1.min_batch = Q.min_batch
         ∧ (Q.flush f s).1.in_flight = Q.in_flight + k
         ∧ (Q.flush f s).1.in_flight ≤ Q.q.length
         ∧ k ≤ ((Q.q.drop Q.in_flight).take
             (min (Q.in_flight + (Q.max_in_flight - Q.in_flight)) Q.q.length
               - Q.in_flight)).length
         ∧ chainOk f s (((Q.q.drop Q.in_flight).take
             (min (Q.in_flight + (Q.max_in_flight - Q.in_flight)) Q.q.length
               - Q.in_flight)).take k) = some s'
         ∧ ((Q.flush f s).2.2 = none →
             k = ((Q.q.drop Q.in_flight).take
               (min (Q.in_flight + (Q.max_in_flight - Q.in_flight)) Q.q.length
                 - Q.in_flight)).length)
         ∧ (∀ e, (Q.flush f s).2.2 = some e →
             ∃ x xs, ((Q.q.drop Q.in_flight).take
                 (min (Q.in_flight + (Q.max_in_flight - Q.in_flight)) Q.q.length
                   - Q.in_flight)).drop k = x :: xs
               ∧ f s' x = .error e))
    ∧ (∀ (σ ε : Type) (f : σ → Query → Except ε σ) (s : σ) (Q : Queue),
        Q.in_flight ≤ Q.q.length →
        (Q.flush f s).1.q = Q.q ∧ (Q.flush f s).1.in_flight ≤ Q.q.length
          ∧ Q.in_flight ≤ (Q.flush f s).1.in_flight)
    ∧ (∀ (Q : Queue) (x : Query), Q.in_flight ≤ Q.q.length →
        (Q.push x).in_flight ≤ (Q.push x).q.length)
    ∧ (∀ Q : Queue, Q.in_flight ≤ Q.q.length →
        Q.pop.2.in_flight ≤ Q.pop.2.q.length) := by
  have hflush : ∀ (σ ε : Type) (f : σ → Query → Except ε σ) (s : σ) (Q : Queue),
      Q.in_flight ≤ Q.q.length →
      (Q.flush f s).1.q = Q.q ∧ (Q.flush f s).1.max_in_flight = Q.max_in_flight
        ∧ (Q.flush f s).1.min_batch = Q.min_batch
        ∧ (Q.flush f s).1.in_flight ≤ Q.q.length
        ∧ Q.in_flight ≤ (Q.flush f s).1.in_flight := by
    intro σ ε f s Q hinv
    unfold Queue.flush
    by_cases he : Q.in_flight = Q.q.length
    · rw [if_pos he]
      exact ⟨rfl, rfl, rfl, hinv, Nat.le_refl _⟩
    · by_cases hcap : Q.max_in_flight - Q.in_flight ≥ Q.min_batch
      · rw [if_neg he, if_pos hcap]
        refine ⟨rfl, rfl, rfl, ?_, by dsimp; omega⟩
        have hk := sendAll_count_le f ((Q.q.drop Q.in_flight).take
          (min (Q.in_flight + (Q.max_in_flight - Q.in_flight)) Q.q.length
            - Q.in_flight)) s
        have hbl : ((Q.q.drop Q.in_flight).take
            (min (Q.in_flight + (Q.max_in_flight - Q.in_flight)) Q.q.length
              - Q.in_flight)).length
            ≤ min (Q.in_flight + (Q.max_in_flight - Q.in_flight)) Q.q.length
              - Q.in_flight := by
          simp [List.length_take]
        dsimp
        omega
      · rw [if_neg he, if_neg hcap]
        exact ⟨rfl, rfl, rfl, hinv, Nat.le_refl _⟩
  refine ⟨?_, ?_, ?_, ?_⟩
  · intro σ ε f s Q hinv hcap
    refine ⟨(sendAll f s ((Q.q.drop Q.in_flight).take
        (min (Q.in_flight + (Q.max_in_flight - Q.in_flight)) Q.q.length
          - Q.in_flight))).1,
      (sendAll f s ((Q.q.drop Q.in_flight).take
        (min (Q.in_flight + (Q.max_in_flight - Q.in_flight)) Q.q.length
          - Q.in_flight))).2.1, ?_⟩
    obtain ⟨hq, hmax, hmin, hle, hge⟩ := hflush σ ε f s Q hinv
    refine ⟨hq, hmax, hmin, ?_, hle,
      sendAll_count_le f _ s, sendAll_chainOk f _ s, ?_, ?_⟩
    · unfold Queue.flush
      by_cases he : Q.in_flight = Q.q.length
      · rw [if_pos he]
        have : min (Q.in_flight + (Q.max_in_flight - Q.in_flight)) Q.q.length
            - Q.in_flight = 0 := by omega
        rw [this, List.take_zero]
        simp [sendAll]
      · rw [if_neg he, if_pos hcap]
    · intro hnone
      apply sendAll_none_all
      unfold Queue.flush at hnone
      by_cases he : Q.in_flight = Q.q.length
      · rw [if_pos he] at hnone
        have : min (Q.in_flight + (Q.max_in_flight - Q.in_flight)) Q.q.length
            - Q.in_flight = 0 := by omega
        rw [this, List.take_zero]
        simp [sendAll]
      · rw [if_neg he, if_pos hcap] at hnone
        exact hnone
    · intro e hsome
      apply sendAll_some_fail
      unfold Queue.flush at hsome
      by_cases he : Q.in_flight = Q.q.length
      · rw [if_pos he] at hsome
        cases hsome
      · rw [if_neg he, if_pos hcap] at hsome
        exact hsome
  · intro σ ε f s Q hinv
    obtain ⟨hq, _, _, hle, hge⟩ := hflush σ ε f s Q hinv
    exact ⟨hq, hle, hge⟩
  · intro Q x hinv
    unfold Queue.push
    simp
    omega
  · intro Q hinv
    unfold Queue.pop
    by_cases h0 : Q.in_flight > 0
    · rw [if_pos h0]
      cases hq : Q.q with
      | nil => exact hinv
      | cons x rest =>
        dsimp
        rw [hq] at hinv
        simp at hinv
        omega
    · rw [if_neg h0]
      exact hinv

/-- C10 (witness): instantiating `c10_queue_send_consistency` at a
three-element queue whose send callback fails on the second query. -/
theorem c10_queue_send_consistency_witness :
    ∃ k s',
      ((⟨[Query.GetSources, Query.Version, Query.UnsetSources], 0, 1000, 100⟩ : Queue).flush
          failingSend 0).1.q = [Query.GetSources, Query.Version, Query.UnsetSources]
      ∧ ((⟨[Query.GetSources, Query.Version, Query.UnsetSources], 0, 1000, 100⟩ : Queue).flush
          failingSend 0).1.max_in_flight = 1000
      ∧ ((⟨[Query.GetSources, Query.Version, Query.UnsetSources], 0, 1000, 100⟩ : Queue).flush
          failingSend 0).1.min_batch = 100
      ∧ ((⟨[Query.GetSources, Query.Version, Query.UnsetSources], 0, 1000, 100⟩ : Queue).flush
          failingSend 0).1.in_flight = 0 + k
      ∧ ((⟨[Query.GetSources, Query.Version, Query.UnsetSources], 0, 1000, 100⟩ : Queue).flush
          failingSend 0).1.in_flight ≤ 3
      ∧ k ≤ 3
      ∧ chainOk failingSend 0
          ([Query.GetSources, Query.Version, Query.UnsetSources].take k) = some s'
      ∧ (((⟨[Query.GetSources, Query.Version, Query.UnsetSources], 0, 1000, 100⟩ : Queue).flush
          failingSend 0).2.2 = none → k = 3)
      ∧ (∀ e, ((⟨[Query.GetSources, Query.Version, Query.UnsetSources], 0, 1000, 100⟩ :
            Queue).flush failingSend 0).2.2 = some e →
          ∃ x xs, [Query.GetSources, Query.Version, Query.UnsetSources].drop k = x :: xs
            ∧ failingSend s' x = .error e) :=
  c10_queue_send_consistency.1 Nat Unit failingSend 0
    ⟨[Query.GetSources, Query.Version, Query.UnsetSources], 0, 1000, 100⟩
    (by decide) (by decide)

lemma prefixOfB_length : ∀ {pat input : List Nat},
    prefixOfB pat input = true → pat.length ≤ input.length := by
  intro pat
  induction pat with
  | nil => intro input _; simp
  | cons x xs ih =>
    intro input h
    cases input with
    | nil => simp [prefixOfB] at h
    | cons y ys =>
      simp only [prefixOfB, Bool.and_eq_true] at h
      simpa using ih h.2

lemma end_of_response_at_eor {buf : List Nat} (h : prefixOfB eorB buf = true) :
    end_of_response buf = .ok (buf.drop 3) 3 := by
  unfold end_of_response pTag
  rw [if_pos h]
  have h3 : (3 : Nat) ≤ buf.length := prefixOfB_length h
  simp only [eorB, List.length_cons, List.length_nil, List.length_drop]
  congr 1
  omega

/-- C3: when `next_or_yield` on a live data-carrying response finds the
EOR marker at the buffer head, it consumes exactly those three bytes and
fuses the response, yielding the pipeline back iff `seen + 1 = expect` and
reporting `ResponseDataUnderrun(seen, expect)` otherwise; in particular a
response declared `A10` whose payload is `"abc"` followed by EOR yields
the item `"abc"` and then `ResponseDataUnderrun(3, 10)`. -/
theorem c3_eor_and_underrun :
    (∀ (rs : RespState) (st : PipeState),
       rs.finished = false → rs.query.expect_data = true → rs.expect ≠ 0 →
       prefixOfB eorB st.buf = true →
       nextOrYield rs st =
         ((if rs.expect = rs.seen + 1 then NYOut.yieldPipe
           else NYOut.errWrap (.ResponseDataUnderrun rs.seen rs.expect)),
          { rs with finished := true },
          { st with buf := st.buf.drop 3 }))
    ∧ runPipeline [.GetSources] (byteStr "A10\nabc\nC\n") 8 =
        [(0, .popped .GetSources), (0, .item .GetSources (byteStr "abc")),
         (0, .fatal (.ResponseDataUnderrun 3 10))] := by
  constructor
  · intro rs st h1 h2 h3 h4
    have heor := end_of_response_at_eor h4
    unfold nextOrYield
    rw [h1]
    rw [if_neg (by simp)]
    rw [h2, if_pos rfl, if_neg h3]
    unfold nyIter
    rw [heor]
  · decide

/-- C3 (witness): instantiating the EOR clause of `c3_eor_and_underrun` at
a concrete live response whose buffer starts with the EOR marker. -/
theorem c3_eor_and_underrun_witness :
    nextOrYield ⟨.GetSources, 2, 1, false⟩ ⟨Queue.default, byteStr "\nC\nrest", []⟩
      = (NYOut.yieldPipe, ⟨.GetSources, 2, 1, true⟩,
         ⟨Queue.default, byteStr "rest", []⟩) := by
  have h := c3_eor_and_underrun.1 ⟨.GetSources, 2, 1, false⟩
    ⟨Queue.default, byteStr "\nC\nrest", []⟩ rfl rfl (by decide) (by decide)
  simpa using h

/-- C4: the expect-versus-declare cross-check in `pop`.  When the popped
query declares no data but the parsed preamble is `A<n>` with `n > 0`,
`pop` fails with `UnexpectedData` carrying the query and the declared
length; when the preamble is `A0` for a data-expecting query, `pop`
returns a successful empty response (which immediately yields the
pipeline back without producing items). -/
theorem c4_expect_declare_crosscheck :
    ∀ (st st3 : PipeState) (query : Query) (Q2 : Queue) (n : Nat),
      (flushOk st.queue).pop = (some query, Q2) →
      runStatus { st with queue := Q2 } = .ok (.ok (some n), st3) →
      (query.expect_data = false → 0 < n →
        popStep st = (.errUnexpectedData query n, st3))
      ∧ (query.expect_data = true → n = 0 →
        popStep st = (.resp query 0, st3)
          ∧ nextOrYield ⟨query, 0, 0, false⟩ st3
            = (.yieldPipe, ⟨query, 0, 0, true⟩, st3)) := by
  intro st st3 query Q2 n h1 h2
  constructor
  · intro hq hn
    unfold popStep
    rw [h1]
    dsimp only
    rw [h2]
    dsimp only
    rw [hq]
    rw [if_neg (by simp), if_neg (by omega)]
  · intro hq hn
    subst hn
    constructor
    · unfold popStep
      rw [h1]
      dsimp only
      rw [h2]
      dsimp only
      rw [hq, if_pos rfl]
    · unfold nextOrYield
      rw [if_neg (by simp), hq, if_pos rfl, if_pos rfl]

/-- C4 (witness): instantiating `c4_expect_declare_crosscheck` at an
`A5` preamble for the no-data query `SetClientId` and at an `A0` preamble
for the data-expecting query `GetSources`. -/
theorem c4_expect_declare_crosscheck_witness :
    popStep ⟨⟨[.SetClientId ['x']], 0, 1000, 100⟩, byteStr "A5\n", []⟩
      = (.errUnexpectedData (.SetClientId ['x']) 5, ⟨⟨[], 0, 1000, 100⟩, [], []⟩)
    ∧ (popStep ⟨⟨[.GetSources], 0, 1000, 100⟩, byteStr "A0\n", []⟩
        = (.resp .GetSources 0, ⟨⟨[], 0, 1000, 100⟩, [], []⟩)
      ∧ nextOrYield ⟨.GetSources, 0, 0, false⟩ ⟨⟨[], 0, 1000, 100⟩, [], []⟩
        = (.yieldPipe, ⟨.GetSources, 0, 0, true⟩, ⟨⟨[], 0, 1000, 100⟩, [], []⟩)) := by
  constructor
  · exact (c4_expect_declare_crosscheck
      ⟨⟨[.SetClientId ['x']], 0, 1000, 100⟩, byteStr "A5\n", []⟩
      ⟨⟨[], 0, 1000, 100⟩, [], []⟩ (.SetClientId ['x']) ⟨[], 0, 1000, 100⟩ 5
      (by decide) (by decide)).1 (by decide) (by decide)
  · exact (c4_expect_declare_crosscheck
      ⟨⟨[.GetSources], 0, 1000, 100⟩, byteStr "A0\n", []⟩
      ⟨⟨[], 0, 1000, 100⟩, [], []⟩ .GetSources ⟨[], 0, 1000, 100⟩ 0
      (by decide) (by decide)).2 (by decide) (by decide)

/-- C6 (counterexample): a live data-carrying response declared `A1` whose
server payload is the 3-byte word `"abc"`: a single `next_or_yield` call
parses and yields the item, leaving a live (unfused) response with
`seen = 3 > 1 = expect` while the EOR marker is still unconsumed at the
buffer head — so `seen ≤ expect` does *not* hold at every point before EOR
recognition. -/
theorem c6_counterexample :
    nextOrYield ⟨.GetSources, 1, 0, false⟩ ⟨Queue.default, byteStr "abc\nC\n", []⟩
      = (.item (.ok (byteStr "abc")), ⟨.GetSources, 1, 3, false⟩,
         ⟨Queue.default, byteStr "\nC\n", []⟩)
    ∧ (⟨.GetSources, 1, 3, false⟩ : RespState).finished = false
    ∧ ¬ ((⟨.GetSources, 1, 3, false⟩ : RespState).seen
        ≤ (⟨.GetSources, 1, 3, false⟩ : RespState).expect) := by
  refine ⟨by decide, rfl, by decide⟩

lemma nyIter_seen_le {rs : RespState} {buf : List Nat} :
    (nyIter rs buf = none → rs.seen ≤ rs.expect)
    ∧ (∀ r rs' buf', nyIter rs buf = some (.item r, rs', buf') →
        rs.seen ≤ rs.expect) := by
  unfold nyIter
  cases heor : end_of_response buf with
  | ok rem consumed =>
    constructor
    · intro h; cases h
    · intro r rs' buf' h
      simp only [Option.some.injEq, Prod.mk.injEq] at h
      obtain ⟨h1, -⟩ := h
      split at h1 <;> cases h1
  | err k =>
    by_cases hover : rs.seen > rs.expect
    · rw [if_pos hover]
      constructor
      · intro h; cases h
      · intro r rs' buf' h
        simp only [Option.some.injEq, Prod.mk.injEq] at h
        obtain ⟨h1, -⟩ := h
        cases h1
    · rw [if_neg hover]
      exact ⟨fun _ => by omega, fun _ _ _ _ => by omega⟩
  | incomplete =>
    by_cases hover : rs.seen > rs.expect
    · rw [if_pos hover]
      constructor
      · intro h; cases h
      · intro r rs' buf' h
        simp only [Option.some.injEq, Prod.mk.injEq] at h
        obtain ⟨h1, -⟩ := h
        cases h1
    · rw [if_neg hover]
      exact ⟨fun _ => by omega, fun _ _ _ _ => by omega⟩

lemma end_of_response_ok_at_eor {buf rem : List Nat} {n : Nat}
    (h : end_of_response buf = .ok rem n) : prefixOfB eorB buf = true := by
  unfold end_of_response pTag at h
  by_cases hp : prefixOfB eorB buf = true
  · exact hp
  · exfalso
    rw [if_neg hp] at h
    by_cases hq : prefixOfB buf eorB = true
    · rw [if_pos hq] at h
      cases h
    · rw [if_neg hq] at h
      cases h

/-- C6 (amended): `seen ≤ expect` holds at every invocation of the item
framing parser — any `next_or_yield` call that produces an item (or that
attempts a refill) starts from a state with `seen ≤ expect` — and a live
data-carrying response observed with `seen > expect` (possible immediately
after an oversized final item) is fused with
`ResponseDataOverrun(seen, expect)` on the next call whenever the EOR
marker is not at the buffer head. -/
theorem c6_seen_le_expect :
    ∀ (rs : RespState) (st : PipeState),
      (∀ r, (nextOrYield rs st).1 = NYOut.item r → rs.seen ≤ rs.expect)
      ∧ (rs.finished = false → rs.query.expect_data = true → rs.expect ≠ 0 →
         rs.expect < rs.seen → prefixOfB eorB st.buf = false →
         (nextOrYield rs st).1
           = .errWrap (.ResponseDataOverrun rs.seen rs.expect)) := by
  intro rs st
  constructor
  · intro r h
    unfold nextOrYield at h
    split at h
    · cases h
    · split at h
      · split at h
        · cases h
        · rcases h1 : nyIter rs st.buf with - | ⟨out, rs', buf'⟩
          · rw [h1] at h
            dsimp only at h
            split at h
            · exact nyIter_seen_le.1 h1
            · rcases h2 : nyIter rs (st.buf ++ st.stream) with - | ⟨out2, rs2, buf2⟩
              · rw [h2] at h
                dsimp only at h
                exact nyIter_seen_le.1 h2
              · rw [h2] at h
                dsimp only at h
                cases h
                exact nyIter_seen_le.2 r rs2 buf2 h2
          · rw [h1] at h
            dsimp only at h
            cases h
            exact nyIter_seen_le.2 r rs' buf' h1
      · cases h
  · intro h1 h2 h3 h4 h5
    unfold nextOrYield
    rw [h1, if_neg (by simp), h2, if_pos rfl, if_neg h3]
    have hiter : nyIter rs st.buf
        = some (.errWrap (.ResponseDataOverrun rs.seen rs.expect),
            { rs with finished := true }, st.buf) := by
      unfold nyIter
      cases heor : end_of_response st.buf with
      | ok rem consumed =>
        exact absurd (end_of_response_ok_at_eor heor)
          (by rw [h5]; exact Bool.false_ne_true)
      | err k => rw [if_pos h4]
      | incomplete => rw [if_pos h4]
    rw [hiter]

/-- C6 (witness): instantiating `c6_seen_le_expect` at the state of
`c6_counterexample` (for the item clause) and at an overrun state with a
non-EOR buffer (for the overrun clause). -/
theorem c6_seen_le_expect_witness :
    ((⟨.GetSources, 1, 0, false⟩ : RespState).seen
        ≤ (⟨.GetSources, 1, 0, false⟩ : RespState).expect)
    ∧ (nextOrYield ⟨.GetSources, 1, 5, false⟩
        ⟨Queue.default, byteStr "xyz\n", []⟩).1
      = .errWrap (.ResponseDataOverrun 5 1) := by
  constructor
  · exact (c6_seen_le_expect ⟨.GetSources, 1, 0, false⟩
      ⟨Queue.default, byteStr "abc\nC\n", []⟩).1 (.ok (byteStr "abc")) (by decide)
  · exact (c6_seen_le_expect ⟨.GetSources, 1, 5, false⟩
      ⟨Queue.default, byteStr "xyz\n", []⟩).2 rfl rfl (by decide) (by decide) (by decide)

lemma sendAll_const_ok : ∀ l : List Query,
    sendAll (fun (_ : Unit) _ => (Except.ok () : Except Unit Unit)) () l
      = (l.length, (), none) := by
  intro l
  induction l with
  | nil => simp [sendAll]
  | cons x xs ih => simp [sendAll, ih]

lemma flushOk_q (Q : Queue) : (flushOk Q).q = Q.q := by
  unfold flushOk Queue.flush
  by_cases he : Q.in_flight = Q.q.length
  · rw [if_pos he]
  · rw [if_neg he]
    by_cases hc : Q.max_in_flight - Q.in_flight ≥ Q.min_batch
    · rw [if_pos hc]
    · rw [if_neg hc]

lemma flushOk_max (Q : Queue) : (flushOk Q).max_in_flight = Q.max_in_flight := by
  unfold flushOk Queue.flush
  by_cases he : Q.in_flight = Q.q.length
  · rw [if_pos he]
  · rw [if_neg he]
    by_cases hc : Q.max_in_flight - Q.in_flight ≥ Q.min_batch
    · rw [if_pos hc]
    · rw [if_neg hc]

lemma flushOk_min (Q : Queue) : (flushOk Q).min_batch = Q.min_batch := by
  unfold flushOk Queue.flush
  by_cases he : Q.in_flight = Q.q.length
  · rw [if_pos he]
  · rw [if_neg he]
    by_cases hc : Q.max_in_flight - Q.in_flight ≥ Q.min_batch
    · rw [if_pos hc]
    · rw [if_neg hc]

lemma flushOk_in_flight_eq (Q : Queue) :
    (flushOk Q).in_flight
      = if Q.in_flight = Q.q.length then Q.in_flight
        else if Q.max_in_flight - Q.in_flight ≥ Q.min_batch then
          Q.in_flight + ((Q.q.drop Q.in_flight).take
            (min (Q.in_flight + (Q.max_in_flight - Q.in_flight)) Q.q.length
              - Q.in_flight)).length
        else Q.in_flight := by
  unfold flushOk Queue.flush
  by_cases he : Q.in_flight = Q.q.length
  · rw [if_pos he, if_pos he]
  · rw [if_neg he, if_neg he]
    by_cases hc : Q.max_in_flight - Q.in_flight ≥ Q.min_batch
    · rw [if_pos hc, if_pos hc, sendAll_const_ok]
    · rw [if_neg hc, if_neg hc]

lemma flushOk_in_flight_le (Q : Queue) (h : Q.in_flight ≤ Q.q.length) :
    (flushOk Q).in_flight ≤ Q.q.length := by
  rw [flushOk_in_flight_eq]
  by_cases he : Q.in_flight = Q.q.length
  · rw [if_pos he]
    exact h
  · rw [if_neg he]
    by_cases hc : Q.max_in_flight - Q.in_flight ≥ Q.min_batch
    · rw [if_pos hc]
      have hbl : ((Q.q.drop Q.in_flight).take
          (min (Q.in_flight + (Q.max_in_flight - Q.in_flight)) Q.q.length
            - Q.in_flight)).length
          = min (min (Q.in_flight + (Q.max_in_flight - Q.in_flight)) Q.q.length
            - Q.in_flight) (Q.q.length - Q.in_flight) := by
        simp [List.length_take, List.length_drop]
      rw [hbl]
      omega
    · rw [if_neg hc]
      exact h

lemma flushOk_pos (Q : Queue) (hne : Q.q ≠ []) (hinv : Q.in_flight ≤ Q.q.length)
    (hmax : Q.max_in_flight = 1000) (hmin : Q.min_batch = 100) :
    0 < (flushOk Q).in_flight := by
  rw [flushOk_in_flight_eq]
  have hlen : 0 < Q.q.length := List.length_pos.mpr hne
  by_cases he : Q.in_flight = Q.q.length
  · rw [if_pos he]
    omega
  · rw [if_neg he]
    by_cases hc : Q.max_in_flight - Q.in_flight ≥ Q.min_batch
    · rw [if_pos hc]
      have hbl : ((Q.q.drop Q.in_flight).take
          (min (Q.in_flight + (Q.max_in_flight - Q.in_flight)) Q.q.length
            - Q.in_flight)).length
          = min (min (Q.in_flight + (Q.max_in_flight - Q.in_flight)) Q.q.length
            - Q.in_flight) (Q.q.length - Q.in_flight) := by
        simp [List.length_take, List.length_drop]
      rw [hbl]
      omega
    · rw [if_neg hc]
      omega

lemma runStatus_queue {st st3 : PipeState} {r : ResponseResult}
    (h : runStatus st = .ok (r, st3)) : st3.queue = st.queue := by
  unfold runStatus at h
  split at h
  · cases h
    rfl
  · cases h
  · split at h
    · cases h
    · split at h
      · cases h
        rfl
      · cases h
      · cases h

lemma nyIter_query {rs : RespState} {buf : List Nat} {out : NYOut}
    {rs' : RespState} {buf' : List Nat}
    (h : nyIter rs buf = some (out, rs', buf')) : rs'.query = rs.query := by
  unfold nyIter at h
  split at h
  · simp only [Option.some.injEq, Prod.mk.injEq] at h
    obtain ⟨-, h2, -⟩ := h
    rw [← h2]
  · split at h
    · simp only [Option.some.injEq, Prod.mk.injEq] at h
      obtain ⟨-, h2, -⟩ := h
      rw [← h2]
    · split at h
      · simp only [Option.some.injEq, Prod.mk.injEq] at h
        obtain ⟨-, h2, -⟩ := h
        rw [← h2]
      · simp only [Option.some.injEq, Prod.mk.injEq] at h
        obtain ⟨-, h2, -⟩ := h
        rw [← h2]
      · cases h
      · cases h
      · simp only [Option.some.injEq, Prod.mk.injEq] at h
        obtain ⟨-, h2, -⟩ := h
        rw [← h2]

lemma nextOrYield_queue (rs : RespState) (st : PipeState) :
    (nextOrYield rs st).2.2.queue = st.queue := by
  unfold nextOrYield
  split
  · rfl
  · split
    · split
      · rfl
      · split
        · rfl
        · split
          · rfl
          · split
            · rfl
            · rfl
    · rfl

lemma nextOrYield_query (rs : RespState) (st : PipeState) :
    (nextOrYield rs st).2.1.query = rs.query := by
  unfold nextOrYield
  split
  · rfl
  · split
    · split
      · rfl
      · split
        · rename_i hiter
          exact nyIter_query hiter
        · split
          · rfl
          · split
            · rename_i hiter
              exact nyIter_query hiter
            · rfl
    · rfl

lemma popStep_idle {st : PipeState} (hq : st.queue.q = [])
    (hinv : st.queue.in_flight ≤ st.queue.q.length) :
    (popStep st).1 = .idle := by
  have h0 : st.queue.in_flight = 0 := by
    rw [hq] at hinv
    simpa using hinv
  have hf : (flushOk st.queue).in_flight = 0 := by
    rw [flushOk_in_flight_eq, if_pos (by rw [hq, h0]; rfl)]
    exact h0
  have hpop : (flushOk st.queue).pop = (none, flushOk st.queue) := by
    unfold Queue.pop
    rw [if_neg (by omega)]
  unfold popStep
  rw [hpop]

lemma popStep_cons {st : PipeState} {x : Query} {l : List Query}
    (hq : st.queue.q = x :: l)
    (hinv : st.queue.in_flight ≤ st.queue.q.length)
    (hmax : st.queue.max_in_flight = 1000)
    (hmin : st.queue.min_batch = 100) :
    ((popStep st).2.queue.q = l
      ∧ (popStep st).2.queue.in_flight ≤ l.length
      ∧ (popStep st).2.queue.max_in_flight = 1000
      ∧ (popStep st).2.queue.min_batch = 100)
    ∧ (popStep st).1 ≠ .idle
    ∧ (∀ q n, (popStep st).1 = .resp q n → q = x)
    ∧ (∀ q e, (popStep st).1 = .errServer q e → q = x)
    ∧ (∀ q n, (popStep st).1 = .errUnexpectedData q n → q = x) := by
  have hfq : (flushOk st.queue).q = x :: l := by rw [flushOk_q, hq]
  have hfpos : 0 < (flushOk st.queue).in_flight :=
    flushOk_pos st.queue (by rw [hq]; simp) hinv hmax hmin
  have hfle : (flushOk st.queue).in_flight ≤ (x :: l).length := by
    have h' := flushOk_in_flight_le st.queue hinv
    rw [hq] at h'
    exact h'
  set Q2 : Queue :=
    ⟨l, (flushOk st.queue).in_flight - 1,
      (flushOk st.queue).max_in_flight, (flushOk st.queue).min_batch⟩ with hQ2def
  have hpop : (flushOk st.queue).pop = (some x, Q2) := by
    unfold Queue.pop
    rw [if_pos hfpos, hfq]
  have hQ2 : Q2.q = l ∧ Q2.in_flight ≤ l.length
      ∧ Q2.max_in_flight = 1000 ∧ Q2.min_batch = 100 := by
    refine ⟨rfl, ?_, ?_, ?_⟩
    · simp only [List.length_cons] at hfle
      simp only [hQ2def]
      omega
    · simp only [hQ2def, flushOk_max]
      exact hmax
    · simp only [hQ2def, flushOk_min]
      exact hmin
  unfold popStep
  rw [hpop]
  dsimp only
  cases hrs : runStatus { st with queue := Q2 } with
  | error e =>
    dsimp only
    exact ⟨hQ2, (by intro hc; cases hc), (fun q n hc => by cases hc),
      (fun q e' hc => by cases hc), (fun q n hc => by cases hc)⟩
  | ok pr =>
    obtain ⟨r, st3⟩ := pr
    have hst3 : st3.queue = Q2 := runStatus_queue hrs
    have hb : st3.queue.q = l ∧ st3.queue.in_flight ≤ l.length
        ∧ st3.queue.max_in_flight = 1000 ∧ st3.queue.min_batch = 100 := by
      rw [hst3]
      exact hQ2
    cases r with
    | error e =>
      dsimp only
      exact ⟨hb, (by intro hc; cases hc), (fun q n hc => by cases hc),
        (fun q e' hc => by
          simp only [PopOut.errServer.injEq] at hc
          exact hc.1.symm),
        (fun q n hc => by cases hc)⟩
    | ok optLen =>
      cases optLen with
      | some len =>
        dsimp only
        by_cases hx : x.expect_data
        · rw [hx, if_pos rfl]
          exact ⟨hb, (by intro hc; cases hc),
            (fun q n hc => by
              simp only [PopOut.resp.injEq] at hc
              exact hc.1.symm),
            (fun q e' hc => by cases hc), (fun q n hc => by cases hc)⟩
        · rw [Bool.not_eq_true] at hx
          rw [hx, if_neg (by simp)]
          by_cases hlen : len = 0
          · rw [if_pos hlen]
            exact ⟨hb, (by intro hc; cases hc),
              (fun q n hc => by
                simp only [PopOut.resp.injEq] at hc
                exact hc.1.symm),
              (fun q e' hc => by cases hc), (fun q n hc => by cases hc)⟩
          · rw [if_neg hlen]
            exact ⟨hb, (by intro hc; cases hc), (fun q n hc => by cases hc),
              (fun q e' hc => by cases hc),
              (fun q n hc => by
                simp only [PopOut.errUnexpectedData.injEq] at hc
                exact hc.1.symm)⟩
      | none =>
        dsimp only
        by_cases hx : x.expect_data
        · rw [hx, if_pos rfl]
          exact ⟨hb, (by intro hc; cases hc),
            (fun q n hc => by
              simp only [PopOut.resp.injEq] at hc
              exact hc.1.symm),
            (fun q e' hc => by cases hc), (fun q n hc => by cases hc)⟩
        · rw [Bool.not_eq_true] at hx
          rw [hx, if_neg (by simp)]
          exact ⟨hb, (by intro hc; cases hc),
            (fun q n hc => by
              simp only [PopOut.resp.injEq] at hc
              exact hc.1.symm),
            (fun q e' hc => by cases hc), (fun q n hc => by cases hc)⟩

lemma pushFold_q : ∀ (qs : List Query) (Q : Queue),
    (qs.foldl (fun Q query => flushOk (Q.push query)) Q).q = Q.q ++ qs := by
  intro qs
  induction qs with
  | nil => intro Q; simp
  | cons x xs ih =>
    intro Q
    simp only [List.foldl_cons]
    rw [ih, flushOk_q]
    simp [Queue.push]

lemma pushFold_max : ∀ (qs : List Query) (Q : Queue),
    (qs.foldl (fun Q query => flushOk (Q.push query)) Q).max_in_flight
      = Q.max_in_flight := by
  intro qs
  induction qs with
  | nil => intro Q; simp
  | cons x xs ih =>
    intro Q
    simp only [List.foldl_cons]
    rw [ih, flushOk_max]
    rfl

lemma pushFold_min : ∀ (qs : List Query) (Q : Queue),
    (qs.foldl (fun Q query => flushOk (Q.push query)) Q).min_batch
      = Q.min_batch := by
  intro qs
  induction qs with
  | nil => intro Q; simp
  | cons x xs ih =>
    intro Q
    simp only [List.foldl_cons]
    rw [ih, flushOk_min]
    rfl

lemma pushFold_inv : ∀ (qs : List Query) (Q : Queue),
    Q.in_flight ≤ Q.q.length →
    (qs.foldl (fun Q query => flushOk (Q.push query)) Q).in_flight
      ≤ (qs.foldl (fun Q query => flushOk (Q.push query)) Q).q.length := by
  intro qs
  induction qs with
  | nil => intro Q h; simpa using h
  | cons x xs ih =>
    intro Q h
    simp only [List.foldl_cons]
    apply ih
    have hp : (Q.push x).in_flight ≤ (Q.push x).q.length := by
      simp only [Queue.push, List.length_append, List.length_cons, List.length_nil]
      omega
    have := flushOk_in_flight_le (Q.push x) hp
    rw [← flushOk_q (Q.push x)] at this
    exact this

lemma pushAllQueue_q (qs : List Query) : (pushAllQueue qs).q = qs := by
  unfold pushAllQueue
  rw [pushFold_q]
  rfl

lemma pushAllQueue_inv (qs : List Query) :
    (pushAllQueue qs).in_flight ≤ (pushAllQueue qs).q.length := by
  unfold pushAllQueue
  exact pushFold_inv qs Queue.default (by simp [Queue.default])

lemma pushAllQueue_max (qs : List Query) : (pushAllQueue qs).max_in_flight = 1000 := by
  unfold pushAllQueue
  rw [pushFold_max]
  rfl

lemma pushAllQueue_min (qs : List Query) : (pushAllQueue qs).min_batch = 100 := by
  unfold pushAllQueue
  rw [pushFold_min]
  rfl

lemma runLoop_fifo (qs : List Query) :
    ∀ (fuel : Nat) (st : PipeState) (count : Nat) (cur : Option RespState),
      st.queue.q = qs.drop count →
      st.queue.in_flight ≤ st.queue.q.length →
      st.queue.max_in_flight = 1000 →
      st.queue.min_batch = 100 →
      (∀ rs, cur = some rs → qs[count - 1]? = some rs.query) →
      ∀ p ∈ runLoop fuel st count cur, ∀ q, p.2.queryOf = some q → qs[p.1]? = some q := by
  intro fuel
  induction fuel with
  | zero =>
    intro st count cur _ _ _ _ _ p hp
    simp [runLoop] at hp
  | succ fuel ih =>
    intro st count cur hq hinv hmax hmin hcur p hp
    cases cur with
    | some rs =>
      rcases hny : nextOrYield rs st with ⟨out, rs', st'⟩
      have hq' : st'.queue = st.queue := by
        have h' := nextOrYield_queue rs st
        rw [hny] at h'
        exact h'
      have hrq : rs'.query = rs.query := by
        have h' := nextOrYield_query rs st
        rw [hny] at h'
        exact h'
      have hcur' : qs[count - 1]? = some rs.query := hcur rs rfl
      have hihs : ∀ p' ∈ runLoop fuel st' count (some rs'),
          ∀ q, p'.2.queryOf = some q → qs[p'.1]? = some q := by
        apply ih st' count (some rs') (by rw [hq']; exact hq)
          (by rw [hq']; exact hinv) (by rw [hq']; exact hmax)
          (by rw [hq']; exact hmin)
        intro rs2 h2
        cases h2
        rw [hrq]
        exact hcur'
      have hihn : ∀ p' ∈ runLoop fuel st' count none,
          ∀ q, p'.2.queryOf = some q → qs[p'.1]? = some q := by
        apply ih st' count none (by rw [hq']; exact hq)
          (by rw [hq']; exact hinv) (by rw [hq']; exact hmax)
          (by rw [hq']; exact hmin)
        intro rs2 h2
        cases h2
      simp only [runLoop, hny] at hp
      cases out with
      | item r =>
        cases r with
        | ok content =>
          rcases List.mem_cons.mp hp with hph | hpt
          · subst hph
            intro q hqo
            simp only [Event.queryOf, Option.some.injEq] at hqo
            rw [← hqo]
            exact hcur'
          · exact hihs p hpt
        | error e =>
          rcases List.mem_cons.mp hp with hph | hpt
          · subst hph
            intro q hqo
            simp [Event.queryOf] at hqo
          · exact hihs p hpt
      | yieldPipe => exact hihn p hp
      | errWrap e =>
        rcases List.mem_cons.mp hp with hph | hpt
        · subst hph
          intro q hqo
          simp [Event.queryOf] at hqo
        · exact hihn p hpt
      | finished => exact hihn p hp
    | none =>
      cases hdrop : qs.drop count with
      | nil =>
        have hqnil : st.queue.q = [] := by rw [hq, hdrop]
        have hidle := popStep_idle hqnil hinv
        rcases hps : popStep st with ⟨out, st'⟩
        rw [hps] at hidle
        dsimp only at hidle
        subst hidle
        simp only [runLoop, hps] at hp
        simp at hp
      | cons x l =>
        have hqx : st.queue.q = x :: l := by rw [hq, hdrop]
        have hspec := popStep_cons hqx hinv hmax hmin
        rcases hps : popStep st with ⟨out, st'⟩
        rw [hps] at hspec
        dsimp only at hspec
        obtain ⟨⟨hq2, hle2, hmax2, hmin2⟩, hnidle, hresp, hserv, hunex⟩ := hspec
        have hget : qs[count]? = some x := by
          have h0 : (qs.drop count)[0]? = some x := by rw [hdrop]; simp
          rw [List.getElem?_drop] at h0
          simpa using h0
        have hdrop' : qs.drop (count + 1) = l := by
          have h1 : (qs.drop count).drop 1 = qs.drop (count + 1) := by
            rw [List.drop_drop]
          rw [← h1, hdrop]
          rfl
        have hihc : ∀ (cur' : Option RespState),
            (∀ rs2, cur' = some rs2 → rs2.query = x) →
            ∀ p' ∈ runLoop fuel st' (count + 1) cur',
            ∀ q, p'.2.queryOf = some q → qs[p'.1]? = some q := by
          intro cur' hc
          apply ih st' (count + 1) cur' (by rw [hq2, hdrop'])
            (by rw [hq2]; exact hle2) hmax2 hmin2
          intro rs2 h2
          rw [hc rs2 h2]
          simpa using hget
        simp only [runLoop, hps] at hp
        cases out with
        | idle => exact absurd rfl hnidle
        | resp q0 expect =>
          have hq0 : q0 = x := hresp q0 expect rfl
          rcases List.mem_cons.mp hp with hph | hpt
          · subst hph
            intro q hqo
            simp only [Event.queryOf, Option.some.injEq] at hqo
            rw [← hqo, hq0]
            exact hget
          · exact hihc (some ⟨q0, expect, 0, false⟩)
              (fun rs2 h2 => by cases h2; exact hq0) p hpt
        | errServer q0 e =>
          have hq0 : q0 = x := hserv q0 e rfl
          rcases List.mem_cons.mp hp with hph | hpt
          · subst hph
            intro q hqo
            simp only [Event.queryOf, Option.some.injEq] at hqo
            rw [← hqo, hq0]
            exact hget
          · exact hihc none (fun rs2 h2 => by cases h2) p hpt
        | errUnexpectedData q0 n =>
          have hq0 : q0 = x := hunex q0 n rfl
          rcases List.mem_cons.mp hp with hph | hpt
          · subst hph
            intro q hqo
            simp only [Event.queryOf, Option.some.injEq] at hqo
            rw [← hqo, hq0]
            exact hget
          · exact hihc none (fun rs2 h2 => by cases h2) p hpt
        | errFatal e =>
          rcases List.mem_cons.mp hp with hph | hpt
          · subst hph
            intro q hqo
            simp [Event.queryOf] at hqo
          · exact hihc none (fun rs2 h2 => by cases h2) p hpt

lemma runLoop_lb :
    ∀ (fuel : Nat) (st : PipeState) (count : Nat) (cur : Option RespState),
      ∀ p ∈ runLoop fuel st count cur, count - 1 ≤ p.1 := by
  intro fuel
  induction fuel with
  | zero =>
    intro st count cur p hp
    simp [runLoop] at hp
  | succ fuel ih =>
    intro st count cur p hp
    cases cur with
    | some rs =>
      rcases hny : nextOrYield rs st with ⟨out, rs', st'⟩
      simp only [runLoop, hny] at hp
      cases out with
      | item r =>
        cases r with
        | ok content =>
          rcases List.mem_cons.mp hp with hph | hpt
          · subst hph; omega
          · exact ih st' count (some rs') p hpt
        | error e =>
          rcases List.mem_cons.mp hp with hph | hpt
          · subst hph; omega
          · exact ih st' count (some rs') p hpt
      | yieldPipe => exact ih st' count none p hp
      | errWrap e =>
        rcases List.mem_cons.mp hp with hph | hpt
        · subst hph; omega
        · exact ih st' count none p hpt
      | finished => exact ih st' count none p hp
    | none =>
      rcases hps : popStep st with ⟨out, st'⟩
      simp only [runLoop, hps] at hp
      cases out with
      | idle => simp at hp
      | resp q0 expect =>
        rcases List.mem_cons.mp hp with hph | hpt
        · subst hph; omega
        · have := ih st' (count + 1) (some ⟨q0, expect, 0, false⟩) p hpt
          omega
      | errServer q0 e =>
        rcases List.mem_cons.mp hp with hph | hpt
        · subst hph; omega
        · have := ih st' (count + 1) none p hpt
          omega
      | errUnexpectedData q0 n =>
        rcases List.mem_cons.mp hp with hph | hpt
        · subst hph; omega
        · have := ih st' (count + 1) none p hpt
          omega
      | errFatal e =>
        rcases List.mem_cons.mp hp with hph | hpt
        · subst hph; omega
        · have := ih st' (count + 1) none p hpt
          omega

lemma runLoop_pairwise :
    ∀ (fuel : Nat) (st : PipeState) (count : Nat) (cur : Option RespState),
      (runLoop fuel st count cur).Pairwise (fun a b => a.1 ≤ b.1) := by
  intro fuel
  induction fuel with
  | zero =>
    intro st count cur
    simp [runLoop]
  | succ fuel ih =>
    intro st count cur
    cases cur with
    | some rs =>
      rcases hny : nextOrYield rs st with ⟨out, rs', st'⟩
      simp only [runLoop, hny]
      cases out with
      | item r =>
        cases r with
        | ok content =>
          refine List.Pairwise.cons ?_ (ih st' count (some rs'))
          intro b hb
          have := runLoop_lb fuel st' count (some rs') b hb
          omega
        | error e =>
          refine List.Pairwise.cons ?_ (ih st' count (some rs'))
          intro b hb
          have := runLoop_lb fuel st' count (some rs') b hb
          omega
      | yieldPipe => exact ih st' count none
      | errWrap e =>
        refine List.Pairwise.cons ?_ (ih st' count none)
        intro b hb
        have := runLoop_lb fuel st' count none b hb
        omega
      | finished => exact ih st' count none
    | none =>
      rcases hps : popStep st with ⟨out, st'⟩
      simp only [runLoop, hps]
      cases out with
      | idle => simp
      | resp q0 expect =>
        refine List.Pairwise.cons ?_ (ih st' (count + 1) (some ⟨q0, expect, 0, false⟩))
        intro b hb
        have := runLoop_lb fuel st' (count + 1) (some ⟨q0, expect, 0, false⟩) b hb
        omega
      | errServer q0 e =>
        refine List.Pairwise.cons ?_ (ih st' (count + 1) none)
        intro b hb
        have := runLoop_lb fuel st' (count + 1) none b hb
        omega
      | errUnexpectedData q0 n =>
        refine List.Pairwise.cons ?_ (ih st' (count + 1) none)
        intro b hb
        have := runLoop_lb fuel st' (count + 1) none b hb
        omega
      | errFatal e =>
        refine List.Pairwise.cons ?_ (ih st' (count + 1) none)
        intro b hb
        have := runLoop_lb fuel st' (count + 1) none b hb
        omega

/-- C1: FIFO query/response matching.  For any sequence of pushed queries
and any server byte stream, every event in the trace of `responses` that
carries a query — the pop of the i-th response, each of its items, a
server-side `D/E/F` error, an `UnexpectedData` error — carries exactly the
i-th pushed query, where i is the index of the pop it belongs to; and the
pop indices along the trace are non-decreasing, so responses are consumed
strictly in push order. -/
theorem c1_fifo_matching :
    ∀ (qs : List Query) (stream : List Nat) (fuel : Nat),
      (∀ p ∈ runPipeline qs stream fuel,
        ∀ q, p.2.queryOf = some q → qs[p.1]? = some q)
      ∧ (runPipeline qs stream fuel).Pairwise (fun a b => a.1 ≤ b.1) := by
  intro qs stream fuel
  constructor
  · intro p hp
    apply runLoop_fifo qs fuel ⟨pushAllQueue qs, [], stream⟩ 0 none
    · rw [pushAllQueue_q]
      rfl
    · exact pushAllQueue_inv qs
    · exact pushAllQueue_max qs
    · exact pushAllQueue_min qs
    · intro rs h
      cases h
    · exact hp
  · exact runLoop_pairwise fuel ⟨pushAllQueue qs, [], stream⟩ 0 none

/-- C1 (witness): instantiating `c1_fifo_matching` on a one-query pipeline
whose server reply is the error `D\n`: the emitted server-error event
carries the pushed query. -/
theorem c1_fifo_matching_witness :
    ([Query.GetSources] : List Query)[0]? = some Query.GetSources := by
  exact (c1_fifo_matching [Query.GetSources] (byteStr "D\n") 4).1
    (0, Event.serverErr Query.GetSources ResponseError.KeyNotFound)
    (by decide) Query.GetSources (by decide)
